import Mathlib

/-!
Shallow embedding of the issync synchronization engine (src/sync.ts,
src/storage.ts, src/gh.ts, src/project.ts) for checking the repository's
specification claims.

Modelling conventions:
- ISO-8601 timestamp strings are kept as `String` and compared with the
  lexicographic `String` order, exactly as the TypeScript code compares them
  with `<` / `>` (the spec's Timestamp Oracle blesses lexical comparison).
- `new Date().toISOString()` is modelled by an ambient clock function
  `clock : Nat → String`; each call site draws the next index.
- JavaScript objects keyed by issue number (`state.issues`) become an
  association list `SyncState` with insertion-order-preserving update.
- Network and filesystem collaborators (GitHub REST/GraphQL, `fs`) are inputs:
  the remote issue list, the per-issue file modification time, and the project
  item lookup are supplied as functions, and every write the engine performs is
  recorded in an explicit `Effect` trace.
-/

namespace Issync

/-- Issue state, `'open' | 'closed'` in src/types.ts. -/
inductive IssueState where
  | isOpen
  | isClosed
deriving DecidableEq, Repr

/-- Scalar custom-field value, `string | number | null` in src/types.ts
(`ProjectFieldValue`). Numbers are modelled as integers; no claim depends on
fractional values. -/
inductive ProjectFieldValue where
  | str (s : String)
  | num (n : Int)
  | null
deriving DecidableEq, Repr

/-- The `Issue` record of src/types.ts. `project_fields` is the optional
mapping of custom-field name to scalar value. -/
structure Issue where
  number : Nat
  title : String
  body : String
  state : IssueState
  labels : List String
  assignees : List String
  milestone : Option String
  created_at : String
  updated_at : String
  closed_at : Option String
  project_fields : Option (List (String × ProjectFieldValue)) := none
deriving DecidableEq, Repr

/-- The per-issue sync record of src/types.ts (`SyncState.issues` values):
`github_updated_at` is the spec's `remote_seen_at`, `local_updated_at` the
spec's `local_seen_at`, `last_synced_at` the spec's `synced_at`,
`project_item_id` the spec's `fields_item_id` and `project_fields_updated_at`
the spec's `fields_synced_at`. -/
structure SyncRecord where
  github_updated_at : String
  local_updated_at : String
  last_synced_at : String
  project_item_id : Option String := none
  project_fields_updated_at : Option String := none
deriving DecidableEq, Repr

/-- The persisted sync state: a JavaScript object keyed by issue number,
modelled as an association list that preserves insertion order. -/
abbrev SyncState := List (Nat × SyncRecord)

/-- Read `state.issues[n]`. -/
def lookupRec : SyncState → Nat → Option SyncRecord
  | [], _ => none
  | (m, r) :: rest, n => if m == n then some r else lookupRec rest n

/-- Write `state.issues[n] = r`: replace in place when the key exists,
append otherwise (JavaScript object update semantics). -/
def setRec : SyncState → Nat → SyncRecord → SyncState
  | [], n, r => [(n, r)]
  | (m, r0) :: rest, n, r =>
    if m == n then (n, r) :: rest else (m, r0) :: setRec rest n r

/-- Mutate the record stored at `n` in place, when present. -/
def updateRec : SyncState → Nat → (SyncRecord → SyncRecord) → SyncState
  | [], _, _ => []
  | (m, r0) :: rest, n, f =>
    if m == n then (m, f r0) :: updateRec rest n f else (m, r0) :: updateRec rest n f

/-- JavaScript truthiness of an optional string (`undefined`, `null` and the
empty string are falsy). -/
def optStrTruthy : Option String → Bool
  | some s => !s.isEmpty
  | none => false

/-- The Timestamp Oracle: strict `a < b` on ISO-8601 timestamp strings, i.e.
lexicographic comparison of the character sequences, exactly what the
TypeScript `<`/`>` string comparisons perform. -/
def tsLt (a b : String) : Bool := a.data < b.data

/-- Non-strict `a ≤ b` on ISO-8601 timestamp strings. -/
def tsLe (a b : String) : Bool := a.data ≤ b.data

/-- JavaScript `String.prototype.trim`: drop whitespace from both ends. -/
def jsTrim (s : String) : String :=
  String.mk (((s.data.dropWhile Char.isWhitespace).reverse.dropWhile
    Char.isWhitespace).reverse)

/-- The project field schema entry used by the push engine, src/types.ts
`ProjectField` restricted to the members the sync logic reads (`id`, `name`);
`dataType`/`options` only shape the GraphQL mutation payload. -/
structure ProjectField where
  id : String
  name : String
deriving DecidableEq, Repr

/-- A project item as the engines see it after response parsing in
`getProjectItemsForIssues` (src/project.ts lines 293–314): its node `id` plus
the flattened field-name/value entries placed at the top level of the record. -/
structure ProjectItem where
  id : String
  fields : List (String × ProjectFieldValue)
deriving DecidableEq, Repr

/-- Keys skipped by `extractProjectFieldValues` (src/project.ts lines 478–485). -/
def skipKeys : List String :=
  ["id", "content", "title", "assignees", "labels", "repository",
   "number", "url", "type", "body", "Title", "Assignees", "Labels", "Milestone"]

/-- Model of `extractProjectFieldValues` (src/project.ts lines 473–510): walk
the item's top-level entries, skip the special keys, and keep the scalar
values. The value normalisation (lines 499–506) is the identity here because
the modelled entries are already scalars, and unknown fields are stored
anyway (lines 492–497). -/
def extractProjectFieldValues (item : ProjectItem) : List (String × ProjectFieldValue) :=
  item.fields.filter (fun kv => !(skipKeys.contains kv.1))

/-- Everything the enabled custom-field ("projects") path of the push engine
resolved before the issue loop (src/sync.ts lines 144–164): the field schema
(`projectFields`), the container node id (`projectId`), and the remote
project-item lookup performed per issue by `getProjectItemForIssue`. -/
structure ProjEnv where
  fields : List ProjectField
  projectId : String
  remoteItemFor : Nat → Option ProjectItem

/-- Every write the engines perform, recorded as an explicit trace element:
a local issue file write (`saveIssue`), the sync-state write
(`saveSyncState`), a remote issue update (`updateIssue`), and a remote
custom-field mutation (`updateProjectField`). -/
inductive Effect where
  | saveIssueFile (i : Issue)
  | saveSyncState (st : SyncState)
  | updateIssue (n : Nat) (title body : Option String) (state : Option IssueState)
      (labels assignees : Option (List String))
  | updateProjectField (projectId itemId fieldId : String) (value : ProjectFieldValue)
deriving DecidableEq, Repr

/-- Console output the engines produce that the claims talk about
(conflict reports, dry-run previews, update confirmations, skip notices). -/
inductive Report where
  | skippedNoRemote (n : Nat)
  | skippedNoSync (n : Nat)
  | conflict (n : Nat)
  | wouldUpdate (n : Nat) (fields : List String)
  | updatedIssue (n : Nat)
  | wouldUpdateField (n : Nat) (fieldName : String)
  | updatedField (n : Nat) (fieldName : String)
deriving DecidableEq, Repr

/-- The update payload computed by `syncUp` (src/sync.ts lines 196–206): every
field on which the local issue differs from the remote one. The
`JSON.stringify` comparisons on label and assignee arrays are order-sensitive
structural equality. -/
structure IssueUpdates where
  title : Option String
  body : Option String
  state : Option IssueState
  labels : Option (List String)
  assignees : Option (List String)
deriving DecidableEq, Repr

/-- Line-by-line model of src/sync.ts lines 196–206. -/
def computeUpdates (localIssue remote : Issue) : IssueUpdates where
  title := if localIssue.title ≠ remote.title then some localIssue.title else none
  body := if localIssue.body ≠ remote.body then some localIssue.body else none
  state := if localIssue.state ≠ remote.state then some localIssue.state else none
  labels := if localIssue.labels ≠ remote.labels then some localIssue.labels else none
  assignees := if localIssue.assignees ≠ remote.assignees then some localIssue.assignees else none

/-- Test of `Object.keys(updates).length > 0` (src/sync.ts line 208). -/
def IssueUpdates.hasChanges (u : IssueUpdates) : Bool :=
  u.title.isSome || u.body.isSome || u.state.isSome || u.labels.isSome || u.assignees.isSome

/-- The changed field names, `Object.keys(updates)` (src/sync.ts line 211). -/
def IssueUpdates.changedFields (u : IssueUpdates) : List String :=
  (if u.title.isSome then ["title"] else []) ++
  (if u.body.isSome then ["body"] else []) ++
  (if u.state.isSome then ["state"] else []) ++
  (if u.labels.isSome then ["labels"] else []) ++
  (if u.assignees.isSome then ["assignees"] else [])

/-- Line 184 of src/sync.ts: `fileModTime ? fileModTime > syncInfo.last_synced_at
: false`. An absent modification time yields `false`; a JavaScript-falsy empty
string also yields `false`, which coincides with the comparison below because
the empty string is the lexical minimum. -/
def localModifiedB (fileModTime : Option String) (lastSyncedAt : String) : Bool :=
  match fileModTime with
  | some t => tsLt lastSyncedAt t
  | none => false

/-- Line 185 of src/sync.ts: `remote.updated_at > syncInfo.github_updated_at`. -/
def remoteModifiedB (remoteUpdatedAt githubUpdatedAt : String) : Bool :=
  tsLt githubUpdatedAt remoteUpdatedAt

/-- Collaborator inputs and flags of one `syncUp` invocation: the remote issue
map built on line 166 of src/sync.ts, the storage collaborator's
`getLocalFileModTime`, the resolved project environment (none when `--projects`
is off, resolution failed, or the config is disabled), the ambient clock, and
the `force`/`dryRun` flags. -/
structure UpCtx where
  remote : Nat → Option Issue
  mtime : Nat → Option String
  proj : Option ProjEnv
  clock : Nat → String
  force : Bool
  dryRun : Bool

/-- Output of the custom-field step: the possibly restamped state, the next
clock index, and the emitted effects and reports. -/
structure FieldsOut where
  st : SyncState
  k : Nat
  effects : List Effect
  reports : List Report
deriving DecidableEq

/-- Output of one push-engine loop iteration (and of the folded loop): state,
next clock index, effects, reports, and the `updated` counter. -/
structure StepOut where
  st : SyncState
  k : Nat
  effects : List Effect
  reports : List Report
  updated : Nat
deriving DecidableEq

/-- The custom-field step of the push engine, src/sync.ts lines 227–265: when
the projects path is enabled and the pre-loop sync record carries a truthy
`project_item_id` and the local issue carries field data, re-fetch the remote
project item, diff each local field value against the remote value through the
schema, and report (dry-run) or apply each difference; afterwards (non-dry-run,
item found) stamp `project_fields_updated_at` on whatever record is now stored
for the issue. Returns the new state, next clock index, effects and reports.
Per-field mutation failures (lines 254–256) only change logging, not state, and
are not modelled. -/
def upFieldsStep (ctx : UpCtx) (st : SyncState) (k : Nat) (localIssue : Issue)
    (syncInfo : SyncRecord) : FieldsOut :=
  match ctx.proj with
  | none => ⟨st, k, [], []⟩
  | some pe =>
    if optStrTruthy syncInfo.project_item_id && localIssue.project_fields.isSome then
      match pe.remoteItemFor localIssue.number with
      | none => ⟨st, k, [], []⟩
      | some remoteProjectItem =>
        let remoteFields := extractProjectFieldValues remoteProjectItem
        let localFields := localIssue.project_fields.getD []
        let itemId := syncInfo.project_item_id.getD ""
        let diffs := localFields.filterMap (fun fv =>
          match pe.fields.find? (fun f => f.name == fv.1) with
          | none => none
          | some f =>
            let remoteValue := (remoteFields.find? (fun rv => rv.1 == fv.1)).map (fun rv => rv.2)
            if some fv.2 ≠ remoteValue then some (f, fv.1, fv.2) else none)
        if ctx.dryRun then
          ⟨st, k, [], diffs.map (fun d => Report.wouldUpdateField localIssue.number d.2.1)⟩
        else
          ⟨updateRec st localIssue.number
             (fun r => { r with project_fields_updated_at := some (ctx.clock k) }),
           k + 1,
           diffs.map (fun d => Effect.updateProjectField pe.projectId itemId d.1.id d.2.2),
           diffs.map (fun d => Report.updatedField localIssue.number d.2.1)⟩
    else ⟨st, k, [], []⟩

/-- One iteration of the push engine's issue loop, src/sync.ts lines 169–266:
skip when the issue has no remote counterpart or no sync record; classify via
`localModifiedB`/`remoteModifiedB`; report a conflict (and stop) when both are
modified and `force` is off; skip entirely when the local copy is unmodified;
otherwise compute the update payload, report (dry-run) or apply it — an applied
update replaces the sync record with fresh timestamps — and finally run the
custom-field step against the pre-loop `syncInfo`. Returns the new state, next
clock index, effects, reports and the `updated` counter increment. -/
def upStep (ctx : UpCtx) (st : SyncState) (k : Nat) (localIssue : Issue) : StepOut :=
  match ctx.remote localIssue.number with
  | none => ⟨st, k, [], [Report.skippedNoRemote localIssue.number], 0⟩
  | some remote =>
    match lookupRec st localIssue.number with
    | none => ⟨st, k, [], [Report.skippedNoSync localIssue.number], 0⟩
    | some syncInfo =>
      let fileModTime := ctx.mtime localIssue.number
      let localModified := localModifiedB fileModTime syncInfo.last_synced_at
      let remoteModified := remoteModifiedB remote.updated_at syncInfo.github_updated_at
      if remoteModified && localModified && !ctx.force then
        ⟨st, k, [], [Report.conflict localIssue.number], 0⟩
      else if !localModified then
        ⟨st, k, [], [], 0⟩
      else
        let updates := computeUpdates localIssue remote
        let step1 : StepOut :=
          if updates.hasChanges then
            if ctx.dryRun then
              ⟨st, k, [], [Report.wouldUpdate localIssue.number updates.changedFields], 1⟩
            else
              ⟨setRec st localIssue.number
                 { github_updated_at := ctx.clock k
                   local_updated_at := localIssue.updated_at
                   last_synced_at := ctx.clock (k + 1)
                   project_item_id := none
                   project_fields_updated_at := none },
               k + 2,
               [Effect.updateIssue localIssue.number updates.title updates.body
                  updates.state updates.labels updates.assignees],
               [Report.updatedIssue localIssue.number], 1⟩
          else ⟨st, k, [], [], 0⟩
        let fieldsRes := upFieldsStep ctx step1.st step1.k localIssue syncInfo
        ⟨fieldsRes.st, fieldsRes.k,
         step1.effects ++ fieldsRes.effects,
         step1.reports ++ fieldsRes.reports,
         step1.updated⟩

/-- The push engine's issue loop folded over all local issues. -/
def upLoop (ctx : UpCtx) (st : SyncState) (k : Nat) : List Issue → StepOut
  | [] => ⟨st, k, [], [], 0⟩
  | l :: ls =>
    let s1 := upStep ctx st k l
    let s2 := upLoop ctx s1.st s1.k ls
    ⟨s2.st, s2.k, s1.effects ++ s2.effects, s1.reports ++ s2.reports,
     s1.updated + s2.updated⟩

/-- Result of one full `syncUp` invocation. -/
structure UpRun where
  state : SyncState
  effects : List Effect
  reports : List Report
  updated : Nat
deriving DecidableEq

/-- Model of `syncUp` (src/sync.ts lines 130–275): run the issue loop over all
local issues starting from the loaded sync state, then persist the sync state
exactly when not in dry-run (lines 268–270). -/
def syncUp (ctx : UpCtx) (localIssues : List Issue) (st0 : SyncState) : UpRun :=
  let r := upLoop ctx st0 0 localIssues
  { state := r.st
    effects := r.effects ++ (if ctx.dryRun then [] else [Effect.saveSyncState r.st])
    reports := r.reports
    updated := r.updated }

/-- A conflict record as emitted by `detectConflicts` (src/types.ts
`ConflictInfo`). -/
structure ConflictInfo where
  number : Nat
  title : String
  github_updated : String
  local_updated : String
  last_synced : String
deriving DecidableEq, Repr

/-- Model of `detectConflicts` (src/sync.ts lines 277–307): for each local
issue with both a remote counterpart and a sync record, compare the issue's
own `updated_at` (not the file modification time) against `last_synced_at`,
and the remote `updated_at` against `github_updated_at`; emit a conflict
record when both are later. -/
def detectConflicts (localIssues : List Issue) (remote : Nat → Option Issue)
    (st : SyncState) : List ConflictInfo :=
  localIssues.filterMap (fun localIssue =>
    match remote localIssue.number, lookupRec st localIssue.number with
    | some rem, some syncInfo =>
      if tsLt syncInfo.last_synced_at localIssue.updated_at &&
         tsLt syncInfo.github_updated_at rem.updated_at then
        some { number := localIssue.number
               title := localIssue.title
               github_updated := rem.updated_at
               local_updated := localIssue.updated_at
               last_synced := syncInfo.last_synced_at }
      else none
    | _, _ => none)

/-- The incremental-cutoff computation of `syncDown` (src/sync.ts lines
40–47): unless `fullSync` is set, collect every record's `last_synced_at`,
drop JavaScript-falsy (empty) values (`filter(Boolean)`), sort ascending and
take the last element (`sort().pop()`). -/
def computeLastSync (fullSync : Bool) (st : SyncState) : Option String :=
  if fullSync then none
  else
    let syncTimes := (st.map (fun p => p.2.last_synced_at)).filter (fun s => !s.isEmpty)
    if syncTimes.length > 0 then (syncTimes.mergeSort tsLe).getLast?
    else none

/-- Modelled from the spec: the remote issue store's `list` operation. The
repository only builds the request (src/gh.ts lines 14–32: `state` is `open`
unless closed issues are included, and a truthy `updatedSince` becomes the
`since` parameter); the filtering itself happens on GitHub's side, whose
`since` semantics — issues updated at or after the given time — the spec's
interface section records. -/
def fetchIssuesModel (allRemote : List Issue) (includeClosed : Bool)
    (updatedSince : Option String) : List Issue :=
  allRemote.filter (fun i =>
    (includeClosed || i.state == IssueState.isOpen) &&
    (match updatedSince with
     | some s => if s.isEmpty then true else tsLe s i.updated_at
     | none => true))

/-- The issue list requested by `syncDown` (src/sync.ts line 49): the remote
store's answer for the computed incremental cutoff. -/
def syncDownFetch (allRemote : List Issue) (includeClosed fullSync : Bool)
    (st : SyncState) : List Issue :=
  fetchIssuesModel allRemote includeClosed (computeLastSync fullSync st)

/-- Collaborator inputs of one `syncDown` invocation: the fetched remote
issues, the loaded sync state, the project data when the `--projects` path
succeeded (field schema plus the batched `projectItemsMap`), and the ambient
clock. -/
structure DownEnv where
  remoteIssues : List Issue
  st0 : SyncState
  projectData : Option (Nat → Option ProjectItem)
  clock : Nat → String

/-- Output of one pull-engine loop iteration (and of the folded loop). -/
structure DownOut where
  st : SyncState
  k : Nat
  effects : List Effect
deriving DecidableEq

/-- One iteration of the pull engine's issue loop, src/sync.ts lines 97–124:
when project data is available and has an item for the issue, attach the
extracted field values to the issue, create the record if missing, and stamp
`project_item_id`/`project_fields_updated_at`; then write the issue file and
upsert the record with `github_updated_at = local_updated_at =
issue.updated_at` and a fresh `last_synced_at`, spreading any existing record
underneath. -/
def downStep (env : DownEnv) (st : SyncState) (k : Nat) (issue : Issue) : DownOut :=
  let enriched : Issue × SyncState × Nat :=
    match env.projectData with
    | none => (issue, st, k)
    | some itemsMap =>
      match itemsMap issue.number with
      | none => (issue, st, k)
      | some projectItem =>
        let issue1 := { issue with
          project_fields := some (extractProjectFieldValues projectItem) }
        let createRes : SyncState × Nat :=
          match lookupRec st issue.number with
          | some _ => (st, k)
          | none =>
            (setRec st issue.number
               { github_updated_at := issue.updated_at
                 local_updated_at := issue.updated_at
                 last_synced_at := env.clock k
                 project_item_id := none
                 project_fields_updated_at := none },
             k + 1)
        (issue1,
         updateRec createRes.1 issue.number
           (fun r => { r with
              project_item_id := some projectItem.id
              project_fields_updated_at := some (env.clock createRes.2) }),
         createRes.2 + 1)
  let issue1 := enriched.1
  let st1 := enriched.2.1
  let k1 := enriched.2.2
  let prev := lookupRec st1 issue.number
  ⟨setRec st1 issue.number
     { github_updated_at := issue.updated_at
       local_updated_at := issue.updated_at
       last_synced_at := env.clock k1
       project_item_id := prev.bind (fun r => r.project_item_id)
       project_fields_updated_at := prev.bind (fun r => r.project_fields_updated_at) },
   k1 + 1,
   [Effect.saveIssueFile issue1]⟩

/-- The pull engine's issue loop folded over the fetched issues. -/
def downLoop (env : DownEnv) (st : SyncState) (k : Nat) : List Issue → DownOut
  | [] => ⟨st, k, []⟩
  | i :: is =>
    let s1 := downStep env st k i
    let s2 := downLoop env s1.st s1.k is
    ⟨s2.st, s2.k, s1.effects ++ s2.effects⟩

/-- Model of the state-mutating tail of `syncDown` (src/sync.ts lines
97–127): process every fetched issue, then persist the sync state once. -/
def syncDown (env : DownEnv) : SyncState × List Effect :=
  let r := downLoop env env.st0 0 env.remoteIssues
  (r.st, r.effects ++ [Effect.saveSyncState r.st])

/-- The frontmatter object `saveIssue` builds (src/storage.ts lines 17–31):
always the nine core keys, plus `project_fields` exactly when present and
non-empty. -/
structure Frontmatter where
  number : Nat
  title : String
  state : IssueState
  labels : List String
  assignees : List String
  milestone : Option String
  created_at : String
  updated_at : String
  closed_at : Option String
  project_fields : Option (List (String × ProjectFieldValue))
deriving DecidableEq, Repr

/-- An issue file on disk: YAML frontmatter plus markdown body. The
`gray-matter`/YAML serialisation layer is treated as a faithful collaborator,
so the file is kept structured. -/
structure IssueFile where
  fm : Frontmatter
  content : String
deriving DecidableEq, Repr

/-- The `project_fields` frontmatter entry `saveIssue` writes: the mapping
itself when present and non-empty, nothing otherwise (src/storage.ts lines
29–31). -/
def savedProjectFields (pf : Option (List (String × ProjectFieldValue))) :
    Option (List (String × ProjectFieldValue)) :=
  match pf with
  | some m => if m.length > 0 then some m else none
  | none => none

/-- Model of `saveIssue` (src/storage.ts lines 15–35). -/
def saveIssue (issue : Issue) : IssueFile where
  fm :=
    { number := issue.number
      title := issue.title
      state := issue.state
      labels := issue.labels
      assignees := issue.assignees
      milestone := issue.milestone
      created_at := issue.created_at
      updated_at := issue.updated_at
      closed_at := issue.closed_at
      project_fields := savedProjectFields issue.project_fields }
  content := issue.body

/-- JavaScript `x || null` on an optional string: `null`, `undefined` and the
empty string collapse to `null`. -/
def jsOrNull : Option String → Option String
  | some s => if s.isEmpty then none else some s
  | none => none

/-- Model of `loadIssue` (src/storage.ts lines 37–65) on a parsed file: the
body is trimmed, `labels`/`assignees` default to `[]` (their stored values are
arrays, so the `||` never fires on a present value), `milestone` and
`closed_at` go through `|| null`, and `project_fields` is copied when the
stored value is truthy. -/
def loadIssue (f : IssueFile) : Issue where
  number := f.fm.number
  title := f.fm.title
  body := jsTrim f.content
  state := f.fm.state
  labels := f.fm.labels
  assignees := f.fm.assignees
  milestone := jsOrNull f.fm.milestone
  created_at := f.fm.created_at
  updated_at := f.fm.updated_at
  closed_at := jsOrNull f.fm.closed_at
  project_fields := f.fm.project_fields

/-- Structural worker for the batch slicing: the fuel bounds the number of
loop iterations and is at least the list length at every call, so the
fuel-exhausted branch is never taken for a positive batch size. -/
def chunksOfAux (k : Nat) : Nat → List Nat → List (List Nat)
  | _, [] => []
  | 0, _ :: _ => []
  | fuel + 1, x :: xs => (x :: xs).take k :: chunksOfAux k fuel ((x :: xs).drop k)

/-- Batch slicing of `getProjectItemsForIssues` (src/project.ts lines
210–213): `for (let i = 0; i < n; i += batchSize) slice(i, i + batchSize)`. -/
def chunksOf (k : Nat) (l : List Nat) : List (List Nat) := chunksOfAux k l.length l

/-- The per-batch GraphQL call of `getProjectItemsForIssues` abstracted as an
oracle: given one batch of issue numbers it either fails (the thrown error of
src/project.ts line 316) or answers, per issue number, the project item the
response parsing of lines 284–314 produces. -/
def GraphOracle := List Nat → Except String (Nat → Option ProjectItem)

/-- One batch of `getProjectItemsForIssues` (src/project.ts lines 216–318):
query the batch; on success insert each answered issue's item into the
accumulated map, and on failure log a warning and keep the map as it was. -/
def processBatch (oracle : GraphOracle) (acc : List (Nat × ProjectItem))
    (batch : List Nat) : List (Nat × ProjectItem) :=
  match oracle batch with
  | Except.error _ => acc
  | Except.ok resp =>
    batch.foldl
      (fun m n =>
        match resp n with
        | some item => m ++ [(n, item)]
        | none => m)
      acc

/-- Model of `getProjectItemsForIssues` (src/project.ts lines 198–322): slice
the issue numbers into batches of 50 and process each batch in turn; a failed
batch does not stop the loop. -/
def getProjectItemsForIssues (oracle : GraphOracle) (issueNumbers : List Nat) :
    List (Nat × ProjectItem) :=
  (chunksOf 50 issueNumbers).foldl (processBatch oracle) []

/-! ## Helper lemmas about the sync-state association list -/

theorem lookupRec_setRec_self (st : SyncState) (n : Nat) (r : SyncRecord) :
    lookupRec (setRec st n r) n = some r := by
  induction st with
  | nil => simp [setRec, lookupRec]
  | cons p rest ih =>
    obtain ⟨m, r0⟩ := p
    by_cases h : m = n
    · simp [setRec, lookupRec, h]
    · simpa [setRec, lookupRec, h] using ih

theorem lookupRec_setRec_ne (st : SyncState) (n m : Nat) (r : SyncRecord) (h : m ≠ n) :
    lookupRec (setRec st n r) m = lookupRec st m := by
  induction st with
  | nil => simp [setRec, lookupRec, Ne.symm h]
  | cons p rest ih =>
    obtain ⟨a, r0⟩ := p
    by_cases ha : a = n
    · subst ha
      simp [setRec, lookupRec, Ne.symm h]
    · by_cases hm : a = m
      · subst hm
        simp [setRec, lookupRec, ha]
      · simpa [setRec, lookupRec, ha, hm] using ih

theorem lookupRec_updateRec_self (st : SyncState) (n : Nat) (f : SyncRecord → SyncRecord) :
    lookupRec (updateRec st n f) n = (lookupRec st n).map f := by
  induction st with
  | nil => simp [updateRec, lookupRec]
  | cons p rest ih =>
    obtain ⟨a, r0⟩ := p
    by_cases ha : a = n
    · simp [updateRec, lookupRec, ha]
    · simpa [updateRec, lookupRec, ha] using ih

theorem lookupRec_updateRec_ne (st : SyncState) (n m : Nat) (f : SyncRecord → SyncRecord)
    (h : m ≠ n) : lookupRec (updateRec st n f) m = lookupRec st m := by
  induction st with
  | nil => simp [updateRec, lookupRec]
  | cons p rest ih =>
    obtain ⟨a, r0⟩ := p
    by_cases ha : a = n
    · subst ha
      simp only [updateRec, beq_self_eq_true, if_true, lookupRec]
      rw [if_neg (by simpa using Ne.symm h), if_neg (by simpa using Ne.symm h)]
      exact ih
    · by_cases hm : a = m
      · subst hm
        simp [updateRec, lookupRec, ha]
      · simpa [updateRec, lookupRec, ha, hm] using ih

/-! ## Helper lemmas about the custom-field step -/

/-- The timestamp-and-linkage core of a record that the custom-field step can
never change (it only restamps `project_fields_updated_at`). -/
def SyncRecord.core (r : SyncRecord) : String × String × String × Option String :=
  (r.github_updated_at, r.local_updated_at, r.last_synced_at, r.project_item_id)

theorem upFieldsStep_st_cases (ctx : UpCtx) (st : SyncState) (k : Nat)
    (localIssue : Issue) (si : SyncRecord) :
    (upFieldsStep ctx st k localIssue si).st = st ∨
    (upFieldsStep ctx st k localIssue si).st =
      updateRec st localIssue.number
        (fun r => { r with project_fields_updated_at := some (ctx.clock k) }) := by
  unfold upFieldsStep
  split
  · exact Or.inl rfl
  · split
    · split
      · exact Or.inl rfl
      · split
        · exact Or.inl rfl
        · exact Or.inr rfl
    · exact Or.inl rfl

theorem upFieldsStep_core (ctx : UpCtx) (st : SyncState) (k : Nat)
    (localIssue : Issue) (si : SyncRecord) (m : Nat) :
    (lookupRec (upFieldsStep ctx st k localIssue si).st m).map SyncRecord.core =
      (lookupRec st m).map SyncRecord.core := by
  rcases upFieldsStep_st_cases ctx st k localIssue si with h | h
  · rw [h]
  · rw [h]
    by_cases hm : m = localIssue.number
    · subst hm
      rw [lookupRec_updateRec_self]
      cases lookupRec st localIssue.number <;> rfl
    · rw [lookupRec_updateRec_ne _ _ _ _ hm]

theorem upFieldsStep_lookup_ne (ctx : UpCtx) (st : SyncState) (k : Nat)
    (localIssue : Issue) (si : SyncRecord) (m : Nat) (hm : m ≠ localIssue.number) :
    lookupRec (upFieldsStep ctx st k localIssue si).st m = lookupRec st m := by
  rcases upFieldsStep_st_cases ctx st k localIssue si with h | h
  · rw [h]
  · rw [h, lookupRec_updateRec_ne _ _ _ _ hm]

theorem upFieldsStep_effects_shape (ctx : UpCtx) (st : SyncState) (k : Nat)
    (localIssue : Issue) (si : SyncRecord) (e : Effect)
    (he : e ∈ (upFieldsStep ctx st k localIssue si).effects) :
    ∃ pid fid v, e = Effect.updateProjectField pid (si.project_item_id.getD "") fid v := by
  unfold upFieldsStep at he
  split at he
  · simp at he
  · split at he
    · split at he
      · simp at he
      · split at he
        · simp at he
        · simp only [List.mem_map] at he
          obtain ⟨d, _, rfl⟩ := he
          exact ⟨_, _, _, rfl⟩
    · simp at he

theorem upFieldsStep_reports_shape (ctx : UpCtx) (st : SyncState) (k : Nat)
    (localIssue : Issue) (si : SyncRecord) (rp : Report)
    (hrp : rp ∈ (upFieldsStep ctx st k localIssue si).reports) :
    (∃ f, rp = Report.wouldUpdateField localIssue.number f) ∨
    (∃ f, rp = Report.updatedField localIssue.number f) := by
  unfold upFieldsStep at hrp
  split at hrp
  · simp at hrp
  · split at hrp
    · split at hrp
      · simp at hrp
      · split at hrp
        · simp only [List.mem_map] at hrp
          obtain ⟨d, _, rfl⟩ := hrp
          exact Or.inl ⟨_, rfl⟩
        · simp only [List.mem_map] at hrp
          obtain ⟨d, _, rfl⟩ := hrp
          exact Or.inr ⟨_, rfl⟩
    · simp at hrp

theorem upFieldsStep_dryRun (ctx : UpCtx) (st : SyncState) (k : Nat)
    (localIssue : Issue) (si : SyncRecord) (hdry : ctx.dryRun = true) :
    (upFieldsStep ctx st k localIssue si).effects = [] ∧
    (upFieldsStep ctx st k localIssue si).st = st := by
  unfold upFieldsStep
  simp only [hdry, if_true]
  split
  · exact ⟨rfl, rfl⟩
  · split
    · split
      · exact ⟨rfl, rfl⟩
      · exact ⟨rfl, rfl⟩
    · exact ⟨rfl, rfl⟩

/-! ## Case-analysis lemmas for one push-engine iteration -/

theorem upStep_skip_noRemote (ctx : UpCtx) (st : SyncState) (k : Nat) (l : Issue)
    (hrem : ctx.remote l.number = none) :
    upStep ctx st k l = ⟨st, k, [], [Report.skippedNoRemote l.number], 0⟩ := by
  unfold upStep
  rw [hrem]

theorem upStep_skip_noSync (ctx : UpCtx) (st : SyncState) (k : Nat) (l : Issue)
    (rem : Issue) (hrem : ctx.remote l.number = some rem)
    (hsi : lookupRec st l.number = none) :
    upStep ctx st k l = ⟨st, k, [], [Report.skippedNoSync l.number], 0⟩ := by
  unfold upStep
  rw [hrem, hsi]

theorem upStep_conflict_case (ctx : UpCtx) (st : SyncState) (k : Nat) (l : Issue)
    (rem : Issue) (si : SyncRecord) (hrem : ctx.remote l.number = some rem)
    (hsi : lookupRec st l.number = some si)
    (hc : (remoteModifiedB rem.updated_at si.github_updated_at &&
           localModifiedB (ctx.mtime l.number) si.last_synced_at && !ctx.force) = true) :
    upStep ctx st k l = ⟨st, k, [], [Report.conflict l.number], 0⟩ := by
  unfold upStep
  rw [hrem, hsi]
  simp only [hc, if_true]

theorem upStep_noLocal_case (ctx : UpCtx) (st : SyncState) (k : Nat) (l : Issue)
    (rem : Issue) (si : SyncRecord) (hrem : ctx.remote l.number = some rem)
    (hsi : lookupRec st l.number = some si)
    (hlm : localModifiedB (ctx.mtime l.number) si.last_synced_at = false) :
    upStep ctx st k l = ⟨st, k, [], [], 0⟩ := by
  unfold upStep
  rw [hrem, hsi]
  simp only [hlm, Bool.and_false, Bool.false_and, Bool.not_false, if_true,
    Bool.false_eq_true, if_false]

/-- The record the push engine stores after a successful non-dry-run update
(src/sync.ts lines 217–221). -/
def pushedRecord (ctx : UpCtx) (k : Nat) (l : Issue) : SyncRecord where
  github_updated_at := ctx.clock k
  local_updated_at := l.updated_at
  last_synced_at := ctx.clock (k + 1)
  project_item_id := none
  project_fields_updated_at := none

/-- The issue-update branch (src/sync.ts lines 196–225) as a standalone
value, for restating `upStep` compositionally. -/
def upStep1 (ctx : UpCtx) (st : SyncState) (k : Nat) (l : Issue) (rem : Issue) : StepOut :=
  if (computeUpdates l rem).hasChanges then
    if ctx.dryRun then
      ⟨st, k, [], [Report.wouldUpdate l.number (computeUpdates l rem).changedFields], 1⟩
    else
      ⟨setRec st l.number (pushedRecord ctx k l), k + 2,
       [Effect.updateIssue l.number (computeUpdates l rem).title (computeUpdates l rem).body
          (computeUpdates l rem).state (computeUpdates l rem).labels
          (computeUpdates l rem).assignees],
       [Report.updatedIssue l.number], 1⟩
  else ⟨st, k, [], [], 0⟩

theorem upStep_main_case (ctx : UpCtx) (st : SyncState) (k : Nat) (l : Issue)
    (rem : Issue) (si : SyncRecord) (hrem : ctx.remote l.number = some rem)
    (hsi : lookupRec st l.number = some si)
    (hlm : localModifiedB (ctx.mtime l.number) si.last_synced_at = true)
    (hc : (remoteModifiedB rem.updated_at si.github_updated_at &&
           localModifiedB (ctx.mtime l.number) si.last_synced_at && !ctx.force) = false) :
    upStep ctx st k l =
      (let s1 := upStep1 ctx st k l rem
       let f := upFieldsStep ctx s1.st s1.k l si
       ⟨f.st, f.k, s1.effects ++ f.effects, s1.reports ++ f.reports, s1.updated⟩) := by
  unfold upStep upStep1 pushedRecord
  rw [hrem, hsi]
  simp only [hlm] at hc ⊢
  simp only [hc, Bool.false_eq_true, if_false, Bool.not_true]

theorem upStep1_reports_no_conflict (ctx : UpCtx) (st : SyncState) (k : Nat)
    (l : Issue) (rem : Issue) (n : Nat) :
    Report.conflict n ∉ (upStep1 ctx st k l rem).reports := by
  unfold upStep1
  split
  · split <;> simp
  · simp

theorem upStep1_effects_shape (ctx : UpCtx) (st : SyncState) (k : Nat)
    (l : Issue) (rem : Issue) (e : Effect) (he : e ∈ (upStep1 ctx st k l rem).effects) :
    e = Effect.updateIssue l.number (computeUpdates l rem).title (computeUpdates l rem).body
          (computeUpdates l rem).state (computeUpdates l rem).labels
          (computeUpdates l rem).assignees := by
  unfold upStep1 at he
  split at he
  · split at he
    · simp at he
    · simpa using he
  · simp at he

theorem upStep_conflict_mem_iff (ctx : UpCtx) (st : SyncState) (k : Nat) (l : Issue)
    (rem : Issue) (si : SyncRecord) (hrem : ctx.remote l.number = some rem)
    (hsi : lookupRec st l.number = some si) :
    Report.conflict l.number ∈ (upStep ctx st k l).reports ↔
      (localModifiedB (ctx.mtime l.number) si.last_synced_at = true ∧
       remoteModifiedB rem.updated_at si.github_updated_at = true ∧
       ctx.force = false) := by
  by_cases hc : (remoteModifiedB rem.updated_at si.github_updated_at &&
      localModifiedB (ctx.mtime l.number) si.last_synced_at && !ctx.force) = true
  · rw [upStep_conflict_case ctx st k l rem si hrem hsi hc]
    simp only [Bool.and_eq_true, Bool.not_eq_true'] at hc
    simp [hc.1.1, hc.1.2, hc.2]
  · have hc' : (remoteModifiedB rem.updated_at si.github_updated_at &&
        localModifiedB (ctx.mtime l.number) si.last_synced_at && !ctx.force) = false :=
      Bool.eq_false_iff.mpr hc
    by_cases hlm : localModifiedB (ctx.mtime l.number) si.last_synced_at = true
    · rw [upStep_main_case ctx st k l rem si hrem hsi hlm hc']
      simp only [hlm, Bool.and_true] at hc'
      constructor
      · intro hmem
        exfalso
        rcases List.mem_append.mp hmem with h | h
        · exact upStep1_reports_no_conflict ctx st k l rem l.number h
        · rcases upFieldsStep_reports_shape _ _ _ _ _ _ h with ⟨f, hf⟩ | ⟨f, hf⟩ <;>
            simp at hf
      · rintro ⟨_, hrm, hf⟩
        rw [hrm, hf] at hc'
        simp at hc'
    · have hlm' : localModifiedB (ctx.mtime l.number) si.last_synced_at = false :=
        Bool.eq_false_iff.mpr hlm
      rw [upStep_noLocal_case ctx st k l rem si hrem hsi hlm']
      simp [hlm']

theorem upStep_updateIssue_number (ctx : UpCtx) (st : SyncState) (k : Nat) (l : Issue)
    (n : Nat) (a b : Option String) (c : Option IssueState) (d e : Option (List String))
    (hmem : Effect.updateIssue n a b c d e ∈ (upStep ctx st k l).effects) :
    n = l.number := by
  cases hr : ctx.remote l.number with
  | none =>
    rw [upStep_skip_noRemote _ _ _ _ hr] at hmem
    simp at hmem
  | some rem =>
    cases hs : lookupRec st l.number with
    | none =>
      rw [upStep_skip_noSync _ _ _ _ _ hr hs] at hmem
      simp at hmem
    | some si =>
      by_cases hc : (remoteModifiedB rem.updated_at si.github_updated_at &&
          localModifiedB (ctx.mtime l.number) si.last_synced_at && !ctx.force) = true
      · rw [upStep_conflict_case _ _ _ _ _ _ hr hs hc] at hmem
        simp at hmem
      · have hc' := Bool.eq_false_iff.mpr hc
        by_cases hlm : localModifiedB (ctx.mtime l.number) si.last_synced_at = true
        · rw [upStep_main_case _ _ _ _ _ _ hr hs hlm hc'] at hmem
          rcases List.mem_append.mp hmem with h | h
          · have := upStep1_effects_shape _ _ _ _ _ _ h
            injection this with h1
          · rcases upFieldsStep_effects_shape _ _ _ _ _ _ h with ⟨pid, fid, v, hv⟩
            simp at hv
        · rw [upStep_noLocal_case _ _ _ _ _ _ hr hs (Bool.eq_false_iff.mpr hlm)] at hmem
          simp at hmem

/-! ## Concrete sample data for witnesses and counterexamples -/

def tsA : String := "2024-01-01T00:00:00Z"

def tsB : String := "2024-01-02T00:00:00Z"

def tsC : String := "2024-01-03T00:00:00Z"

def tsD : String := "2024-01-04T00:00:00Z"

def sampleIssue (n : Nat) (ttl upd : String)
    (pf : Option (List (String × ProjectFieldValue)) := none) : Issue :=
  { number := n, title := ttl, body := "body", state := IssueState.isOpen, labels := [],
    assignees := [], milestone := none, created_at := tsA, updated_at := upd,
    closed_at := none, project_fields := pf }

def sampleRecord : SyncRecord :=
  { github_updated_at := tsA, local_updated_at := tsA, last_synced_at := tsA,
    project_item_id := some "ITEM", project_fields_updated_at := some "2023-12-31T00:00:00Z" }

def samplePE : ProjEnv :=
  { fields := [{ id := "FLD", name := "Priority" }], projectId := "PROJ",
    remoteItemFor := fun _ =>
      some { id := "ITEM2", fields := [("Priority", ProjectFieldValue.str "Low")] } }

/-! ## Claim C1 -/

/-- C1: for a local issue with a remote counterpart and a sync record, push
with `force=false` reports a conflict exactly when both `localModified` (file
modification time exists and is later than the record's `last_synced_at`) and
`remoteModified` (remote `updated_at` later than the record's
`github_updated_at`) hold; with `force=true` on the same inputs no conflict is
reported and the locally computed payload is applied (the remote issue-update
call is issued whenever the payload is non-empty and the run is not a
dry-run). -/
theorem C1_push_conflict_iff (ctx : UpCtx) (st : SyncState) (k : Nat) (l rem : Issue)
    (si : SyncRecord) (hrem : ctx.remote l.number = some rem)
    (hsi : lookupRec st l.number = some si) :
    (Report.conflict l.number ∈ (upStep ctx st k l).reports ↔
      (localModifiedB (ctx.mtime l.number) si.last_synced_at = true ∧
       remoteModifiedB rem.updated_at si.github_updated_at = true ∧
       ctx.force = false)) ∧
    (ctx.force = true →
     localModifiedB (ctx.mtime l.number) si.last_synced_at = true →
     remoteModifiedB rem.updated_at si.github_updated_at = true →
     Report.conflict l.number ∉ (upStep ctx st k l).reports ∧
     (ctx.dryRun = false → (computeUpdates l rem).hasChanges = true →
       Effect.updateIssue l.number (computeUpdates l rem).title (computeUpdates l rem).body
         (computeUpdates l rem).state (computeUpdates l rem).labels
         (computeUpdates l rem).assignees ∈ (upStep ctx st k l).effects)) := by
  refine ⟨upStep_conflict_mem_iff ctx st k l rem si hrem hsi, ?_⟩
  intro hf hlm hrm
  have hc' : (remoteModifiedB rem.updated_at si.github_updated_at &&
      localModifiedB (ctx.mtime l.number) si.last_synced_at && !ctx.force) = false := by
    rw [hf, hlm, hrm]
    rfl
  constructor
  · rw [upStep_conflict_mem_iff ctx st k l rem si hrem hsi]
    rintro ⟨_, _, hf0⟩
    rw [hf] at hf0
    cases hf0
  · intro hdry hch
    rw [upStep_main_case ctx st k l rem si hrem hsi hlm hc']
    apply List.mem_append.mpr
    left
    unfold upStep1
    rw [if_pos hch, if_neg (by rw [hdry]; simp)]
    simp

def ctxC1W : UpCtx :=
  { remote := fun _ => some (sampleIssue 1 "T" tsB), mtime := fun _ => some tsC,
    proj := none, clock := fun _ => tsD, force := false, dryRun := false }

/-- Witness instantiating C1 at a concrete input. -/
theorem C1_push_conflict_iff_witness :
    (Report.conflict (sampleIssue 1 "S" tsA).number ∈
        (upStep ctxC1W [(1, sampleRecord)] 0 (sampleIssue 1 "S" tsA)).reports ↔
      (localModifiedB (ctxC1W.mtime (sampleIssue 1 "S" tsA).number)
          sampleRecord.last_synced_at = true ∧
       remoteModifiedB (sampleIssue 1 "T" tsB).updated_at
          sampleRecord.github_updated_at = true ∧
       ctxC1W.force = false)) ∧
    (ctxC1W.force = true →
     localModifiedB (ctxC1W.mtime (sampleIssue 1 "S" tsA).number)
        sampleRecord.last_synced_at = true →
     remoteModifiedB (sampleIssue 1 "T" tsB).updated_at
        sampleRecord.github_updated_at = true →
     Report.conflict (sampleIssue 1 "S" tsA).number ∉
        (upStep ctxC1W [(1, sampleRecord)] 0 (sampleIssue 1 "S" tsA)).reports ∧
     (ctxC1W.dryRun = false →
      (computeUpdates (sampleIssue 1 "S" tsA) (sampleIssue 1 "T" tsB)).hasChanges = true →
      Effect.updateIssue (sampleIssue 1 "S" tsA).number
          (computeUpdates (sampleIssue 1 "S" tsA) (sampleIssue 1 "T" tsB)).title
          (computeUpdates (sampleIssue 1 "S" tsA) (sampleIssue 1 "T" tsB)).body
          (computeUpdates (sampleIssue 1 "S" tsA) (sampleIssue 1 "T" tsB)).state
          (computeUpdates (sampleIssue 1 "S" tsA) (sampleIssue 1 "T" tsB)).labels
          (computeUpdates (sampleIssue 1 "S" tsA) (sampleIssue 1 "T" tsB)).assignees ∈
        (upStep ctxC1W [(1, sampleRecord)] 0 (sampleIssue 1 "S" tsA)).effects)) :=
  C1_push_conflict_iff ctxC1W [(1, sampleRecord)] 0 (sampleIssue 1 "S" tsA)
    (sampleIssue 1 "T" tsB) sampleRecord rfl rfl

/-! ## Claim C3 -/

def ctxC3X : UpCtx :=
  { remote := fun _ => some (sampleIssue 3 "T" tsA), mtime := fun _ => some tsA,
    proj := some samplePE, clock := fun _ => tsD, force := false, dryRun := false }

def localC3X : Issue :=
  sampleIssue 3 "T" tsA (some [("Priority", ProjectFieldValue.str "High")])

/-- Counterexample to C3: a concrete push input on which every precondition of
the claim holds — the issue has a remote counterpart and a sync record,
`localModified` is false, the custom-field path is enabled and resolved, the
record carries a `project_item_id`, the local issue carries field data, and
the custom-field step itself (run directly on the same inputs) would emit a
field mutation — yet the push iteration skips the issue entirely and produces
no field diffs, reports or effects, because line 192's `continue` also skips
the custom-field step. -/
theorem C3_counterexample :
    ctxC3X.remote localC3X.number = some (sampleIssue 3 "T" tsA) ∧
    lookupRec [(3, sampleRecord)] localC3X.number = some sampleRecord ∧
    localModifiedB (ctxC3X.mtime localC3X.number) sampleRecord.last_synced_at = false ∧
    ctxC3X.proj.isSome = true ∧
    sampleRecord.project_item_id.isSome = true ∧
    localC3X.project_fields.isSome = true ∧
    (upFieldsStep ctxC3X [(3, sampleRecord)] 0 localC3X sampleRecord).effects ≠ [] ∧
    upStep ctxC3X [(3, sampleRecord)] 0 localC3X =
      ⟨[(3, sampleRecord)], 0, [], [], 0⟩ := by
  decide

/-- C3 as amended: when `localModified` is false, push does not merely skip
the issue-update payload — it skips the whole loop iteration, including the
custom-field step, leaving the state untouched and producing no effects, no
reports and no update count, even when custom-field sync is enabled, the
record carries `fields_item_id`, and the local issue carries field data. -/
theorem C3_noLocal_skips_everything (ctx : UpCtx) (st : SyncState) (k : Nat)
    (l rem : Issue) (si : SyncRecord) (hrem : ctx.remote l.number = some rem)
    (hsi : lookupRec st l.number = some si)
    (hlm : localModifiedB (ctx.mtime l.number) si.last_synced_at = false) :
    upStep ctx st k l = ⟨st, k, [], [], 0⟩ :=
  upStep_noLocal_case ctx st k l rem si hrem hsi hlm

/-- Witness instantiating the amended C3 at a concrete input. -/
theorem C3_noLocal_skips_everything_witness :
    upStep ctxC3X [(3, sampleRecord)] 0 localC3X = ⟨[(3, sampleRecord)], 0, [], [], 0⟩ :=
  C3_noLocal_skips_everything ctxC3X [(3, sampleRecord)] 0 localC3X
    (sampleIssue 3 "T" tsA) sampleRecord rfl rfl (by decide)

/-! ## Claim C5 -/

theorem detectConflicts_any_iff (localIssues : List Issue) (remote : Nat → Option Issue)
    (st : SyncState) (l rem : Issue) (si : SyncRecord)
    (hN : (localIssues.map Issue.number).Nodup) (hl : l ∈ localIssues)
    (hrem : remote l.number = some rem) (hsi : lookupRec st l.number = some si) :
    (detectConflicts localIssues remote st).any (fun c => c.number == l.number) = true ↔
      (tsLt si.last_synced_at l.updated_at = true ∧
       tsLt si.github_updated_at rem.updated_at = true) := by
  unfold detectConflicts
  rw [List.any_eq_true]
  constructor
  · rintro ⟨c, hc, hcn⟩
    rw [List.mem_filterMap] at hc
    obtain ⟨l', hl', hc'⟩ := hc
    cases hr' : remote l'.number with
    | none =>
      rw [hr'] at hc'
      cases hc'
    | some rem' =>
      cases hs' : lookupRec st l'.number with
      | none =>
        rw [hr', hs'] at hc'
        cases hc'
      | some si' =>
        rw [hr', hs'] at hc'
        simp only at hc'
        split at hc'
        · rename_i hcond
          have hnum : c.number = l'.number := by
            cases hc'
            rfl
          have hll : l' = l := by
            apply List.inj_on_of_nodup_map hN hl' hl
            rw [← hnum]
            simpa using hcn
          subst hll
          rw [hrem] at hr'
          rw [hsi] at hs'
          cases hr'
          cases hs'
          simpa using hcond
        · cases hc'
  · rintro ⟨h1, h2⟩
    refine ⟨{ number := l.number, title := l.title, github_updated := rem.updated_at,
              local_updated := l.updated_at, last_synced := si.last_synced_at }, ?_, by simp⟩
    rw [List.mem_filterMap]
    refine ⟨l, hl, ?_⟩
    rw [hrem, hsi]
    simp [h1, h2]

/-- Counterexample to C5: a concrete input on which push with `force=false`
classifies the issue as a conflict (the file's modification time exceeds
`last_synced_at` and the remote is modified), yet `conflicts()` emits nothing,
because `detectConflicts` tests the issue's stored `updated_at` — here equal
to `last_synced_at` — instead of the file modification time the push engine
uses. This refutes the claimed "if and only if". -/
theorem C5_counterexample :
    detectConflicts [sampleIssue 5 "T" tsA]
        (fun _ => some (sampleIssue 5 "R" tsB)) [(5, sampleRecord)] = [] ∧
    Report.conflict 5 ∈
      (upStep
        { remote := fun _ => some (sampleIssue 5 "R" tsB), mtime := fun _ => some tsC,
          proj := none, clock := fun _ => tsD, force := false, dryRun := false }
        [(5, sampleRecord)] 0 (sampleIssue 5 "T" tsA)).reports := by
  decide

/-- C5 as amended: `conflicts()` emits a conflict record for an issue exactly
when the issue's stored `updated_at` exceeds the record's `last_synced_at` and
the remote `updated_at` exceeds the record's `github_updated_at`; push's
`force=false` classification instead tests the local file's modification time
against `last_synced_at`, so the two agree whenever those two local-modification
tests agree — in particular, when the file's modification time and the stored
`updated_at` both exceed `last_synced_at` and the remote is modified, both
report the issue and push performs no remote call and no state change for it. -/
theorem C5_conflicts_vs_push (localIssues : List Issue) (st : SyncState) (ctx : UpCtx)
    (k : Nat) (l rem : Issue) (si : SyncRecord)
    (hN : (localIssues.map Issue.number).Nodup) (hl : l ∈ localIssues)
    (hrem : ctx.remote l.number = some rem) (hsi : lookupRec st l.number = some si)
    (hforce : ctx.force = false) :
    ((detectConflicts localIssues ctx.remote st).any (fun c => c.number == l.number) = true ↔
      (tsLt si.last_synced_at l.updated_at = true ∧
       tsLt si.github_updated_at rem.updated_at = true)) ∧
    (Report.conflict l.number ∈ (upStep ctx st k l).reports ↔
      (localModifiedB (ctx.mtime l.number) si.last_synced_at = true ∧
       remoteModifiedB rem.updated_at si.github_updated_at = true)) ∧
    (tsLt si.last_synced_at l.updated_at = true →
     localModifiedB (ctx.mtime l.number) si.last_synced_at = true →
     remoteModifiedB rem.updated_at si.github_updated_at = true →
     (detectConflicts localIssues ctx.remote st).any (fun c => c.number == l.number) = true ∧
     upStep ctx st k l = ⟨st, k, [], [Report.conflict l.number], 0⟩) := by
  refine ⟨detectConflicts_any_iff localIssues ctx.remote st l rem si hN hl hrem hsi, ?_, ?_⟩
  · rw [upStep_conflict_mem_iff ctx st k l rem si hrem hsi]
    simp [hforce]
  · intro hdet hlm hrm
    constructor
    · rw [detectConflicts_any_iff localIssues ctx.remote st l rem si hN hl hrem hsi]
      exact ⟨hdet, hrm⟩
    · exact upStep_conflict_case ctx st k l rem si hrem hsi
        (by rw [hlm, hrm, hforce]; rfl)

def localC5W : Issue := sampleIssue 5 "T" tsB

def ctxC5W : UpCtx :=
  { remote := fun _ => some (sampleIssue 5 "R" tsC), mtime := fun _ => some tsC,
    proj := none, clock := fun _ => tsD, force := false, dryRun := false }

/-- Witness instantiating the amended C5 at a concrete input. -/
theorem C5_conflicts_vs_push_witness :
    ((detectConflicts [localC5W] ctxC5W.remote [(5, sampleRecord)]).any
        (fun c => c.number == localC5W.number) = true ↔
      (tsLt sampleRecord.last_synced_at localC5W.updated_at = true ∧
       tsLt sampleRecord.github_updated_at (sampleIssue 5 "R" tsC).updated_at = true)) ∧
    (Report.conflict localC5W.number ∈
        (upStep ctxC5W [(5, sampleRecord)] 0 localC5W).reports ↔
      (localModifiedB (ctxC5W.mtime localC5W.number) sampleRecord.last_synced_at = true ∧
       remoteModifiedB (sampleIssue 5 "R" tsC).updated_at
         sampleRecord.github_updated_at = true)) ∧
    (tsLt sampleRecord.last_synced_at localC5W.updated_at = true →
     localModifiedB (ctxC5W.mtime localC5W.number) sampleRecord.last_synced_at = true →
     remoteModifiedB (sampleIssue 5 "R" tsC).updated_at
       sampleRecord.github_updated_at = true →
     (detectConflicts [localC5W] ctxC5W.remote [(5, sampleRecord)]).any
        (fun c => c.number == localC5W.number) = true ∧
     upStep ctxC5W [(5, sampleRecord)] 0 localC5W =
       ⟨[(5, sampleRecord)], 0, [], [Report.conflict localC5W.number], 0⟩) :=
  C5_conflicts_vs_push [localC5W] [(5, sampleRecord)] ctxC5W 0 localC5W
    (sampleIssue 5 "R" tsC) sampleRecord (by decide) (by decide) rfl rfl rfl

/-! ## Claim C9 -/

def ctxC9X : UpCtx :=
  { remote := fun _ => some (sampleIssue 9 "T" tsA), mtime := fun _ => some tsC,
    proj := some samplePE, clock := fun k => "2024-06-0" ++ toString (k + 1) ++ "T00:00:00Z",
    force := false, dryRun := false }

def localC9X : Issue :=
  sampleIssue 9 "TX" tsA (some [("Priority", ProjectFieldValue.str "High")])

/-- Counterexample to C9: a concrete non-dry-run push that successfully
updates the issue (the `updateIssue` effect is emitted) and whose custom-field
step then runs; the persisted record afterwards does drop `project_item_id`,
but it is not a record of only the three timestamp fields —
`project_fields_updated_at` is present again, freshly stamped by line 262 on
the replacement record. -/
theorem C9_counterexample :
    Effect.updateIssue 9 (some "TX") none none none none ∈
      (upStep ctxC9X [(9, sampleRecord)] 0 localC9X).effects ∧
    lookupRec (upStep ctxC9X [(9, sampleRecord)] 0 localC9X).st 9 =
      some { github_updated_at := "2024-06-01T00:00:00Z"
             local_updated_at := tsA
             last_synced_at := "2024-06-02T00:00:00Z"
             project_item_id := none
             project_fields_updated_at := some "2024-06-03T00:00:00Z" } := by
  decide

/-- C9 as amended: after a successful non-dry-run issue update, the sync
record is replaced by one holding fresh `github_updated_at`/`last_synced_at`
clock stamps and the local issue's `updated_at`, with `project_item_id`
absent; the previously stored `project_fields_updated_at` is likewise gone,
though the same run's custom-field step may stamp a fresh one on the
replacement record. That step still addresses the remote item through the
`project_item_id` captured from the record as it was before the replacement. -/
theorem C9_record_replacement (ctx : UpCtx) (st : SyncState) (k : Nat) (l rem : Issue)
    (si : SyncRecord) (hrem : ctx.remote l.number = some rem)
    (hsi : lookupRec st l.number = some si)
    (hlm : localModifiedB (ctx.mtime l.number) si.last_synced_at = true)
    (hc : (remoteModifiedB rem.updated_at si.github_updated_at &&
           localModifiedB (ctx.mtime l.number) si.last_synced_at && !ctx.force) = false)
    (hch : (computeUpdates l rem).hasChanges = true)
    (hdry : ctx.dryRun = false) :
    (∃ p, lookupRec (upStep ctx st k l).st l.number =
        some { github_updated_at := ctx.clock k
               local_updated_at := l.updated_at
               last_synced_at := ctx.clock (k + 1)
               project_item_id := none
               project_fields_updated_at := p } ∧
      (p = none ∨ p = some (ctx.clock (k + 2)))) ∧
    (∀ e ∈ (upStep ctx st k l).effects, ∀ pid iid fid v,
      e = Effect.updateProjectField pid iid fid v → iid = si.project_item_id.getD "") := by
  rw [upStep_main_case ctx st k l rem si hrem hsi hlm hc]
  have hs1 : upStep1 ctx st k l rem =
      ⟨setRec st l.number (pushedRecord ctx k l), k + 2,
       [Effect.updateIssue l.number (computeUpdates l rem).title (computeUpdates l rem).body
          (computeUpdates l rem).state (computeUpdates l rem).labels
          (computeUpdates l rem).assignees],
       [Report.updatedIssue l.number], 1⟩ := by
    unfold upStep1
    rw [if_pos hch, if_neg (by rw [hdry]; simp)]
  rw [hs1]
  constructor
  · rcases upFieldsStep_st_cases ctx (setRec st l.number (pushedRecord ctx k l)) (k + 2) l si
      with hcase | hcase
    · refine ⟨none, ?_, Or.inl rfl⟩
      simp only [hcase]
      rw [lookupRec_setRec_self]
      rfl
    · refine ⟨some (ctx.clock (k + 2)), ?_, Or.inr rfl⟩
      simp only [hcase]
      rw [lookupRec_updateRec_self, lookupRec_setRec_self]
      rfl
  · intro e he pid iid fid v hev
    rcases List.mem_append.mp he with h | h
    · simp only [List.mem_singleton] at h
      rw [h] at hev
      cases hev
    · rcases upFieldsStep_effects_shape _ _ _ _ _ _ h with ⟨pid', fid', v', hv⟩
      rw [hv] at hev
      injection hev with h1 h2
      exact h2.symm ▸ rfl

/-- Witness instantiating the amended C9 at a concrete input. -/
theorem C9_record_replacement_witness :
    (∃ p, lookupRec (upStep ctxC9X [(9, sampleRecord)] 0 localC9X).st localC9X.number =
        some { github_updated_at := ctxC9X.clock 0
               local_updated_at := localC9X.updated_at
               last_synced_at := ctxC9X.clock 1
               project_item_id := none
               project_fields_updated_at := p } ∧
      (p = none ∨ p = some (ctxC9X.clock 2))) ∧
    (∀ e ∈ (upStep ctxC9X [(9, sampleRecord)] 0 localC9X).effects, ∀ pid iid fid v,
      e = Effect.updateProjectField pid iid fid v →
        iid = sampleRecord.project_item_id.getD "") :=
  C9_record_replacement ctxC9X [(9, sampleRecord)] 0 localC9X (sampleIssue 9 "T" tsA)
    sampleRecord rfl rfl (by decide) (by decide) (by decide) rfl

/-! ## Claim C4 -/

theorem upStep_dryRun_effects (ctx : UpCtx) (st : SyncState) (k : Nat) (l : Issue)
    (hdry : ctx.dryRun = true) : (upStep ctx st k l).effects = [] := by
  cases hr : ctx.remote l.number with
  | none => rw [upStep_skip_noRemote _ _ _ _ hr]
  | some rem =>
    cases hs : lookupRec st l.number with
    | none => rw [upStep_skip_noSync _ _ _ _ _ hr hs]
    | some si =>
      by_cases hc : (remoteModifiedB rem.updated_at si.github_updated_at &&
          localModifiedB (ctx.mtime l.number) si.last_synced_at && !ctx.force) = true
      · rw [upStep_conflict_case _ _ _ _ _ _ hr hs hc]
      · have hc' := Bool.eq_false_iff.mpr hc
        by_cases hlm : localModifiedB (ctx.mtime l.number) si.last_synced_at = true
        · rw [upStep_main_case _ _ _ _ _ _ hr hs hlm hc']
          have hf := (upFieldsStep_dryRun ctx (upStep1 ctx st k l rem).st
            (upStep1 ctx st k l rem).k l si hdry).1
          have hs1 : (upStep1 ctx st k l rem).effects = [] := by
            unfold upStep1
            split
            · simp [hdry]
            · rfl
          simp only [hf, hs1, List.append_nil]
        · rw [upStep_noLocal_case _ _ _ _ _ _ hr hs (Bool.eq_false_iff.mpr hlm)]

theorem upLoop_dryRun_effects (ctx : UpCtx) (hdry : ctx.dryRun = true) :
    ∀ (ls : List Issue) (st : SyncState) (k : Nat), (upLoop ctx st k ls).effects = [] := by
  intro ls
  induction ls with
  | nil => intro st k; rfl
  | cons l ls ih =>
    intro st k
    show (upStep ctx st k l).effects ++ (upLoop ctx _ _ ls).effects = []
    rw [upStep_dryRun_effects ctx st k l hdry, ih]
    rfl

/-- C4: with `dryRun=true`, push mutates nothing whatever it detects: its
effect trace is empty, so the sync state is never written back, no local issue
file is written, and no remote issue-update or field-mutation call is issued;
only console reports are produced. -/
theorem C4_dryRun_no_effects (ctx : UpCtx) (localIssues : List Issue) (st0 : SyncState)
    (hdry : ctx.dryRun = true) : (syncUp ctx localIssues st0).effects = [] := by
  unfold syncUp
  simp only [hdry, if_true]
  rw [upLoop_dryRun_effects ctx hdry localIssues st0 0]
  rfl

def ctxC4W : UpCtx :=
  { remote := fun _ => some (sampleIssue 4 "R" tsB), mtime := fun _ => some tsC,
    proj := some samplePE, clock := fun _ => tsD, force := false, dryRun := true }

/-- Witness instantiating C4 at a concrete input with pending changes. -/
theorem C4_dryRun_no_effects_witness :
    (syncUp ctxC4W [sampleIssue 4 "T" tsA
        (some [("Priority", ProjectFieldValue.str "High")])] [(4, sampleRecord)]).effects = [] :=
  C4_dryRun_no_effects ctxC4W
    [sampleIssue 4 "T" tsA (some [("Priority", ProjectFieldValue.str "High")])]
    [(4, sampleRecord)] rfl

/-! ## Claim C10 -/

def issueC10X : Issue := { sampleIssue 10 "T" tsA with milestone := some "" }

/-- Counterexample to C10: an issue whose body equals its trimmed form but
whose milestone is the empty string does not round-trip — `loadIssue` passes
the parsed milestone through `|| null`, so the empty string comes back as
`null` and the loaded issue differs from the saved one. -/
theorem C10_counterexample :
    jsTrim issueC10X.body = issueC10X.body ∧
    loadIssue (saveIssue issueC10X) ≠ issueC10X := by
  decide

/-- C10 as amended: for an issue whose body equals its trimmed form and whose
milestone, `closed_at` and custom-field mapping avoid the JavaScript-falsy
degenerate values (empty-string milestone or `closed_at`, empty mapping —
which the `|| null` defaults and the non-empty-only write normalise away),
the local store round-trips exactly, and the loaded issue carries a
`project_fields` mapping precisely when the saved issue carried a non-empty
one. -/
theorem C10_roundtrip (i : Issue) (hbody : jsTrim i.body = i.body)
    (hms : i.milestone ≠ some "") (hca : i.closed_at ≠ some "")
    (hpf : i.project_fields ≠ some []) :
    loadIssue (saveIssue i) = i ∧
    ((loadIssue (saveIssue i)).project_fields.isSome = true ↔
      (i.project_fields.isSome = true ∧ i.project_fields.getD [] ≠ [])) := by
  obtain ⟨n, ttl, body, stt, labs, asg, ms, ca, ua, cla, pf⟩ := i
  simp only at hbody hms hca hpf
  have hmil : jsOrNull ms = ms := by
    cases ms with
    | none => rfl
    | some s =>
      have hs : s ≠ "" := fun h => hms (by rw [h])
      simp [jsOrNull, String.isEmpty_iff, hs]
  have hcl : jsOrNull cla = cla := by
    cases cla with
    | none => rfl
    | some s =>
      have hs : s ≠ "" := fun h => hca (by rw [h])
      simp [jsOrNull, String.isEmpty_iff, hs]
  have hpfs : savedProjectFields pf = pf := by
    cases pf with
    | none => rfl
    | some m =>
      have hm : m ≠ [] := fun h => hpf (by rw [h])
      simp [savedProjectFields, List.length_pos_iff_ne_nil.mpr hm]
  constructor
  · simp [loadIssue, saveIssue, Issue.mk.injEq, hbody, hmil, hcl, hpfs]
  · simp only [loadIssue, saveIssue, hpfs]
    cases pf with
    | none => simp
    | some m =>
      have hm : m ≠ [] := fun h => hpf (by rw [h])
      simp [hm]

def issueC10W : Issue :=
  { number := 10, title := "T", body := "body", state := IssueState.isClosed,
    labels := ["bug"], assignees := ["me"], milestone := some "v1", created_at := tsA,
    updated_at := tsB, closed_at := some tsC,
    project_fields := some [("Priority", ProjectFieldValue.str "High")] }

/-- Witness instantiating the amended C10 at a concrete input. -/
theorem C10_roundtrip_witness :
    loadIssue (saveIssue issueC10W) = issueC10W ∧
    ((loadIssue (saveIssue issueC10W)).project_fields.isSome = true ↔
      (issueC10W.project_fields.isSome = true ∧ issueC10W.project_fields.getD [] ≠ [])) :=
  C10_roundtrip issueC10W (by decide) (by decide) (by decide) (by decide)

/-! ## Claim C8 -/

theorem chunksOfAux_irrel (k : Nat) (hk : 0 < k) :
    ∀ (f g : Nat) (l : List Nat), l.length ≤ f → l.length ≤ g →
      chunksOfAux k f l = chunksOfAux k g l := by
  intro f
  induction f with
  | zero =>
    intro g l hf _
    have : l = [] := List.eq_nil_of_length_eq_zero (Nat.le_zero.mp hf)
    subst this
    cases g <;> rfl
  | succ f ih =>
    intro g l hf hg
    cases l with
    | nil => cases g <;> rfl
    | cons x xs =>
      cases g with
      | zero => simp at hg
      | succ g =>
        show (x :: xs).take k :: chunksOfAux k f ((x :: xs).drop k) =
          (x :: xs).take k :: chunksOfAux k g ((x :: xs).drop k)
        rw [ih g ((x :: xs).drop k) (by simp at hf ⊢; omega) (by simp at hg ⊢; omega)]

theorem chunksOf_cons (k : Nat) (hk : 0 < k) (x : Nat) (xs : List Nat) :
    chunksOf k (x :: xs) = (x :: xs).take k :: chunksOf k ((x :: xs).drop k) := by
  show (x :: xs).take k :: chunksOfAux k (x :: xs).length.pred ((x :: xs).drop k) =
    (x :: xs).take k :: chunksOf k ((x :: xs).drop k)
  rw [chunksOfAux_irrel k hk (x :: xs).length.pred ((x :: xs).drop k).length
    ((x :: xs).drop k) (by simp; omega) le_rfl]
  rfl

theorem chunksOf_flatten (k : Nat) (hk : 0 < k) (l : List Nat) :
    (chunksOf k l).flatten = l := by
  have H : ∀ (n : Nat) (l : List Nat), l.length ≤ n → (chunksOf k l).flatten = l := by
    intro n
    induction n with
    | zero =>
      intro l hl
      have : l = [] := List.eq_nil_of_length_eq_zero (Nat.le_zero.mp hl)
      subst this
      rfl
    | succ n ih =>
      intro l hl
      cases l with
      | nil => rfl
      | cons x xs =>
        rw [chunksOf_cons k hk, List.flatten_cons,
          ih ((x :: xs).drop k) (by simp at hl ⊢; omega)]
        exact List.take_append_drop k (x :: xs)
  exact H l.length l le_rfl

theorem chunksOf_length_le (k : Nat) (hk : 0 < k) (l : List Nat) (b : List Nat)
    (hb : b ∈ chunksOf k l) : b.length ≤ k := by
  have H : ∀ (n : Nat) (l : List Nat), l.length ≤ n →
      ∀ b ∈ chunksOf k l, b.length ≤ k := by
    intro n
    induction n with
    | zero =>
      intro l hl b hb
      have : l = [] := List.eq_nil_of_length_eq_zero (Nat.le_zero.mp hl)
      subst this
      cases hb
    | succ n ih =>
      intro l hl b hb
      cases l with
      | nil => cases hb
      | cons x xs =>
        rw [chunksOf_cons k hk] at hb
        rcases List.mem_cons.mp hb with h | h
        · rw [h]
          simp
        · exact ih ((x :: xs).drop k) (by simp at hl ⊢; omega) b h
  exact H l.length l le_rfl b hb

theorem innerFold_mono (resp : Nat → Option ProjectItem) (batch : List Nat)
    (acc : List (Nat × ProjectItem)) (x : Nat × ProjectItem) (hx : x ∈ acc) :
    x ∈ batch.foldl
      (fun m n =>
        match resp n with
        | some item => m ++ [(n, item)]
        | none => m)
      acc := by
  induction batch generalizing acc with
  | nil => exact hx
  | cons h t ih =>
    rw [List.foldl_cons]
    apply ih
    cases resp h <;> simp [hx]

theorem innerFold_adds (resp : Nat → Option ProjectItem) (batch : List Nat)
    (acc : List (Nat × ProjectItem)) (n : Nat) (item : ProjectItem)
    (hn : n ∈ batch) (hitem : resp n = some item) :
    (n, item) ∈ batch.foldl
      (fun m n =>
        match resp n with
        | some item => m ++ [(n, item)]
        | none => m)
      acc := by
  induction batch generalizing acc with
  | nil => cases hn
  | cons h t ih =>
    rw [List.foldl_cons]
    rcases List.mem_cons.mp hn with rfl | hn'
    · apply innerFold_mono
      rw [hitem]
      simp
    · exact ih _ hn'

theorem processBatch_mono (oracle : GraphOracle) (acc : List (Nat × ProjectItem))
    (batch : List Nat) (x : Nat × ProjectItem) (hx : x ∈ acc) :
    x ∈ processBatch oracle acc batch := by
  unfold processBatch
  cases oracle batch with
  | error e => exact hx
  | ok resp => exact innerFold_mono resp batch acc x hx

theorem processBatch_adds (oracle : GraphOracle) (acc : List (Nat × ProjectItem))
    (batch : List Nat) (resp : Nat → Option ProjectItem) (n : Nat) (item : ProjectItem)
    (hok : oracle batch = Except.ok resp) (hn : n ∈ batch) (hitem : resp n = some item) :
    (n, item) ∈ processBatch oracle acc batch := by
  unfold processBatch
  rw [hok]
  exact innerFold_adds resp batch acc n item hn hitem

theorem foldl_processBatch_mono (oracle : GraphOracle) (chunks : List (List Nat))
    (acc : List (Nat × ProjectItem)) (x : Nat × ProjectItem) (hx : x ∈ acc) :
    x ∈ chunks.foldl (processBatch oracle) acc := by
  induction chunks generalizing acc with
  | nil => exact hx
  | cons b bs ih =>
    rw [List.foldl_cons]
    exact ih _ (processBatch_mono oracle acc b x hx)

/-- C8: the custom-field value fetch slices the fetched issues' identifiers
into batches of at most 50 per request (the batches partition the identifier
list in order), and a batch failure is caught: every entry answered by a
successful batch reaches the final map no matter which other batches fail, so
one failing batch never prevents the remaining batches from being processed. -/
theorem C8_batching_and_isolation (oracle : GraphOracle) (issueNumbers : List Nat) :
    (∀ b ∈ chunksOf 50 issueNumbers, b.length ≤ 50) ∧
    (chunksOf 50 issueNumbers).flatten = issueNumbers ∧
    (∀ b ∈ chunksOf 50 issueNumbers, ∀ resp, oracle b = Except.ok resp →
      ∀ n ∈ b, ∀ item, resp n = some item →
        (n, item) ∈ getProjectItemsForIssues oracle issueNumbers) := by
  refine ⟨fun b hb => chunksOf_length_le 50 (by omega) issueNumbers b hb,
    chunksOf_flatten 50 (by omega) issueNumbers, ?_⟩
  intro b hb resp hok n hn item hitem
  obtain ⟨pre, post, hsplit⟩ := List.append_of_mem hb
  unfold getProjectItemsForIssues
  rw [hsplit, List.foldl_append, List.foldl_cons]
  exact foldl_processBatch_mono oracle post _ _
    (processBatch_adds oracle _ b resp n item hok hn hitem)

def oracleC8W : GraphOracle := fun b =>
  if b.contains 0 then Except.error "batch failed"
  else Except.ok (fun n => some { id := toString n, fields := [] })

/-- Witness instantiating C8: sixty identifiers split into a batch of fifty
and a batch of ten; the oracle fails on the first batch, yet an entry answered
by the second batch is in the final map. -/
theorem C8_batching_and_isolation_witness :
    ((List.range 60).drop 50).length ≤ 50 ∧
    (55, ({ id := toString 55, fields := [] } : ProjectItem)) ∈
      getProjectItemsForIssues oracleC8W (List.range 60) :=
  ⟨((C8_batching_and_isolation oracleC8W (List.range 60)).1
      ((List.range 60).drop 50) (by decide)),
   ((C8_batching_and_isolation oracleC8W (List.range 60)).2.2
      ((List.range 60).drop 50) (by decide)
      (fun n => some { id := toString n, fields := [] }) rfl
      55 (by decide) _ rfl)⟩

/-! ## Claim C2 -/

theorem downStep_self (env : DownEnv) (st : SyncState) (k : Nat) (i : Issue) :
    ∃ r, lookupRec (downStep env st k i).st i.number = some r ∧
      r.github_updated_at = i.updated_at ∧ r.local_updated_at = i.updated_at ∧
      ∃ j, r.last_synced_at = env.clock j := by
  cases hpd : env.projectData with
  | none =>
    simp only [downStep, hpd]
    exact ⟨_, lookupRec_setRec_self _ _ _, rfl, rfl, _, rfl⟩
  | some itemsMap =>
    cases him : itemsMap i.number with
    | none =>
      simp only [downStep, hpd, him]
      exact ⟨_, lookupRec_setRec_self _ _ _, rfl, rfl, _, rfl⟩
    | some item =>
      cases hlu : lookupRec st i.number with
      | none =>
        simp only [downStep, hpd, him, hlu]
        exact ⟨_, lookupRec_setRec_self _ _ _, rfl, rfl, _, rfl⟩
      | some r =>
        simp only [downStep, hpd, him, hlu]
        exact ⟨_, lookupRec_setRec_self _ _ _, rfl, rfl, _, rfl⟩

theorem downStep_frame (env : DownEnv) (st : SyncState) (k : Nat) (i : Issue)
    (m : Nat) (hm : m ≠ i.number) :
    lookupRec (downStep env st k i).st m = lookupRec st m := by
  cases hpd : env.projectData with
  | none =>
    simp only [downStep, hpd]
    rw [lookupRec_setRec_ne _ _ _ _ hm]
  | some itemsMap =>
    cases him : itemsMap i.number with
    | none =>
      simp only [downStep, hpd, him]
      rw [lookupRec_setRec_ne _ _ _ _ hm]
    | some item =>
      cases hlu : lookupRec st i.number with
      | none =>
        simp only [downStep, hpd, him, hlu]
        rw [lookupRec_setRec_ne _ _ _ _ hm, lookupRec_updateRec_ne _ _ _ _ hm,
          lookupRec_setRec_ne _ _ _ _ hm]
      | some r =>
        simp only [downStep, hpd, him, hlu]
        rw [lookupRec_setRec_ne _ _ _ _ hm, lookupRec_updateRec_ne _ _ _ _ hm]

theorem downLoop_frame (env : DownEnv) :
    ∀ (ls : List Issue) (st : SyncState) (k : Nat) (m : Nat),
      m ∉ ls.map Issue.number →
      lookupRec (downLoop env st k ls).st m = lookupRec st m := by
  intro ls
  induction ls with
  | nil => intro st k m _; rfl
  | cons i is ih =>
    intro st k m hm
    simp only [List.map_cons, List.mem_cons, not_or] at hm
    show lookupRec (downLoop env (downStep env st k i).st (downStep env st k i).k is).st m = _
    rw [ih _ _ m (by simpa using hm.2), downStep_frame env st k i m hm.1]

theorem downLoop_post (env : DownEnv) :
    ∀ (ls : List Issue) (st : SyncState) (k : Nat),
      (ls.map Issue.number).Nodup →
      ∀ i ∈ ls, ∃ r, lookupRec (downLoop env st k ls).st i.number = some r ∧
        r.github_updated_at = i.updated_at ∧ r.local_updated_at = i.updated_at ∧
        ∃ j, r.last_synced_at = env.clock j := by
  intro ls
  induction ls with
  | nil => intro st k _ i hi; cases hi
  | cons x xs ih =>
    intro st k hN i hi
    simp only [List.map_cons, List.nodup_cons] at hN
    rcases List.mem_cons.mp hi with rfl | hi'
    · obtain ⟨r, hrec, h1, h2, j, h3⟩ := downStep_self env st k i
      refine ⟨r, ?_, h1, h2, j, h3⟩
      show lookupRec (downLoop env (downStep env st k i).st (downStep env st k i).k xs).st
        i.number = _
      rw [downLoop_frame env xs _ _ i.number hN.1]
      exact hrec
    · exact ih _ _ hN.2 i hi'

/-- Bool test for the sync-state write effect. -/
def isSaveSyncStateB : Effect → Bool
  | Effect.saveSyncState _ => true
  | _ => false

theorem downStep_effects_shape (env : DownEnv) (st : SyncState) (k : Nat) (i : Issue)
    (e : Effect) (he : e ∈ (downStep env st k i).effects) :
    ∃ i1, e = Effect.saveIssueFile i1 := by
  cases hpd : env.projectData with
  | none =>
    simp only [downStep, hpd, List.mem_singleton] at he
    exact ⟨_, he⟩
  | some itemsMap =>
    cases him : itemsMap i.number with
    | none =>
      simp only [downStep, hpd, him, List.mem_singleton] at he
      exact ⟨_, he⟩
    | some item =>
      cases hlu : lookupRec st i.number with
      | none =>
        simp only [downStep, hpd, him, hlu, List.mem_singleton] at he
        exact ⟨_, he⟩
      | some r =>
        simp only [downStep, hpd, him, hlu, List.mem_singleton] at he
        exact ⟨_, he⟩

theorem downLoop_effects_shape (env : DownEnv) :
    ∀ (ls : List Issue) (st : SyncState) (k : Nat),
      ∀ e ∈ (downLoop env st k ls).effects, ∃ i1, e = Effect.saveIssueFile i1 := by
  intro ls
  induction ls with
  | nil => intro st k e he; cases he
  | cons i is ih =>
    intro st k e he
    rcases List.mem_append.mp he with h | h
    · exact downStep_effects_shape env st k i e h
    · exact ih _ _ e h

theorem downLoop_effects_no_save (env : DownEnv) (ls : List Issue) (st : SyncState)
    (k : Nat) : (downLoop env st k ls).effects.filter isSaveSyncStateB = [] := by
  rw [List.filter_eq_nil_iff]
  intro e he
  obtain ⟨i1, rfl⟩ := downLoop_effects_shape env ls st k e he
  simp [isSaveSyncStateB]

/-- C2: for every issue processed by a pull, the final sync state holds a
record with `github_updated_at` (remote-seen) and `local_updated_at`
(local-seen) both equal to the issue's `updated_at`, and a `last_synced_at`
drawn from the clock, hence at or after the pull's start whenever every clock
reading is; moreover the effect trace writes the sync state exactly once, as
its final action, after all per-issue file writes. -/
theorem C2_pull_postcondition (env : DownEnv) (start : String)
    (hN : (env.remoteIssues.map Issue.number).Nodup)
    (hclk : ∀ j, tsLe start (env.clock j) = true) :
    (∀ i ∈ env.remoteIssues, ∃ r, lookupRec (syncDown env).1 i.number = some r ∧
      r.github_updated_at = i.updated_at ∧ r.local_updated_at = i.updated_at ∧
      tsLe start r.last_synced_at = true) ∧
    (syncDown env).2.filter isSaveSyncStateB = [Effect.saveSyncState (syncDown env).1] ∧
    (syncDown env).2.getLast? = some (Effect.saveSyncState (syncDown env).1) := by
  refine ⟨?_, ?_, ?_⟩
  · intro i hi
    obtain ⟨r, hrec, h1, h2, j, h3⟩ := downLoop_post env env.remoteIssues env.st0 0 hN i hi
    refine ⟨r, hrec, h1, h2, ?_⟩
    rw [h3]
    exact hclk j
  · show ((downLoop env env.st0 0 env.remoteIssues).effects ++
      [Effect.saveSyncState (downLoop env env.st0 0 env.remoteIssues).st]).filter
        isSaveSyncStateB = _
    rw [List.filter_append, downLoop_effects_no_save]
    rfl
  · show ((downLoop env env.st0 0 env.remoteIssues).effects ++
      [Effect.saveSyncState (downLoop env env.st0 0 env.remoteIssues).st]).getLast? = _
    exact List.getLast?_concat _

def envC2W : DownEnv :=
  { remoteIssues := [sampleIssue 1 "A" tsB, sampleIssue 2 "B" tsC], st0 := [(1, sampleRecord)],
    projectData := some (fun n => if n == 1 then
      some { id := "IT", fields := [("Priority", ProjectFieldValue.str "X")] } else none),
    clock := fun _ => tsD }

/-- Witness instantiating C2 at a concrete input. -/
theorem C2_pull_postcondition_witness :
    (∀ i ∈ envC2W.remoteIssues, ∃ r, lookupRec (syncDown envC2W).1 i.number = some r ∧
      r.github_updated_at = i.updated_at ∧ r.local_updated_at = i.updated_at ∧
      tsLe tsA r.last_synced_at = true) ∧
    (syncDown envC2W).2.filter isSaveSyncStateB =
      [Effect.saveSyncState (syncDown envC2W).1] ∧
    (syncDown envC2W).2.getLast? = some (Effect.saveSyncState (syncDown envC2W).1) :=
  C2_pull_postcondition envC2W tsA (by decide)
    (fun j => by
      show tsLe tsA tsD = true
      decide)

/-! ## Claim C7 -/

theorem str_eq_of_data_eq (a b : String) (h : a.data = b.data) : a = b := by
  cases a
  cases b
  simp only at h
  rw [h]

theorem tsLe_refl (a : String) : tsLe a a = true := by
  simp [tsLe]

theorem tsLe_trans (a b c : String) (h1 : tsLe a b = true) (h2 : tsLe b c = true) :
    tsLe a c = true := by
  simp only [tsLe, decide_eq_true_eq] at h1 h2 ⊢
  exact le_trans h1 h2

theorem tsLe_total (a b : String) : (tsLe a b || tsLe b a) = true := by
  simp only [tsLe, Bool.or_eq_true, decide_eq_true_eq]
  exact le_total _ _

theorem tsLe_antisymm (a b : String) (h1 : tsLe a b = true) (h2 : tsLe b a = true) :
    a = b := by
  simp only [tsLe, decide_eq_true_eq] at h1 h2
  exact str_eq_of_data_eq a b (le_antisymm h1 h2)

theorem tsLe_empty (a : String) : tsLe "" a = true := by
  simp only [tsLe, decide_eq_true_eq]
  exact List.nil_le

/-- The maximum `last_synced_at` over all records (empty string when there are
none), the claim's reference value for the incremental cutoff. -/
def tsMax (a b : String) : String := if tsLe a b then b else a

def maxSyncTime (st : SyncState) : String :=
  (st.map (fun p => p.2.last_synced_at)).foldl tsMax ""

theorem tsLe_tsMax_left (a b : String) : tsLe a (tsMax a b) = true := by
  unfold tsMax
  split
  · assumption
  · exact tsLe_refl a

theorem tsLe_tsMax_right (a b : String) : tsLe b (tsMax a b) = true := by
  unfold tsMax
  split
  · exact tsLe_refl b
  · rename_i h
    rcases Bool.or_eq_true_iff.mp (tsLe_total a b) with h1 | h1
    · exact absurd h1 h
    · exact h1

theorem foldl_tsMax_base (l : List String) (a : String) :
    tsLe a (l.foldl tsMax a) = true := by
  induction l generalizing a with
  | nil => exact tsLe_refl a
  | cons x xs ih =>
    rw [List.foldl_cons]
    exact tsLe_trans _ _ _ (tsLe_tsMax_left a x) (ih (tsMax a x))

theorem foldl_tsMax_ge (l : List String) (a : String) (x : String) (hx : x ∈ l) :
    tsLe x (l.foldl tsMax a) = true := by
  induction l generalizing a with
  | nil => cases hx
  | cons y ys ih =>
    rw [List.foldl_cons]
    rcases List.mem_cons.mp hx with rfl | h
    · exact tsLe_trans _ _ _ (tsLe_tsMax_right a x) (foldl_tsMax_base ys (tsMax a x))
    · exact ih (tsMax a y) h

theorem foldl_tsMax_mem (l : List String) (a : String) :
    l.foldl tsMax a = a ∨ l.foldl tsMax a ∈ l := by
  induction l generalizing a with
  | nil => exact Or.inl rfl
  | cons x xs ih =>
    rw [List.foldl_cons]
    rcases ih (tsMax a x) with h | h
    · rw [h]
      unfold tsMax
      split
      · exact Or.inr (List.mem_cons_self x xs)
      · exact Or.inl rfl
    · exact Or.inr (List.mem_cons_of_mem x h)

theorem getLast?_mem_str (l : List String) (m : String) (h : l.getLast? = some m) :
    m ∈ l := by
  induction l with
  | nil => cases h
  | cons a t ih =>
    cases t with
    | nil =>
      simp only [List.getLast?_singleton, Option.some.injEq] at h
      rw [h]
      exact List.mem_singleton_self _
    | cons b t' =>
      rw [List.getLast?_cons_cons] at h
      exact List.mem_cons_of_mem a (ih h)

theorem sorted_getLast?_ge (l : List String)
    (hs : List.Pairwise (fun a b => tsLe a b = true) l) (m : String)
    (hm : l.getLast? = some m) : ∀ x ∈ l, tsLe x m = true := by
  induction l with
  | nil => intro x hx; cases hx
  | cons a t ih =>
    intro x hx
    cases t with
    | nil =>
      simp only [List.getLast?_singleton, Option.some.injEq] at hm
      subst hm
      rcases List.mem_singleton.mp hx with rfl
      exact tsLe_refl _
    | cons b t' =>
      rw [List.getLast?_cons_cons] at hm
      have hpw := List.pairwise_cons.mp hs
      rcases List.mem_cons.mp hx with rfl | hx'
      · exact tsLe_trans _ _ _ (hpw.1 m (getLast?_mem_str _ _ hm)) (tsLe_refl m)
      · exact ih hpw.2 hm x hx'

theorem computeLastSync_eq_max (st : SyncState)
    (m : String) (hm : computeLastSync false st = some m) :
    m = maxSyncTime st ∧ m.isEmpty = false := by
  unfold computeLastSync at hm
  simp only [Bool.false_eq_true, if_false] at hm
  split at hm
  · rename_i hlen
    have hsort := @List.sorted_mergeSort String tsLe
      (fun a b c => tsLe_trans a b c) (fun a b => tsLe_total a b)
      ((st.map (fun p => p.2.last_synced_at)).filter (fun s => !s.isEmpty))
    have hperm := List.mergeSort_perm
      ((st.map (fun p => p.2.last_synced_at)).filter (fun s => !s.isEmpty)) tsLe
    have hmem : m ∈ (st.map (fun p => p.2.last_synced_at)).filter (fun s => !s.isEmpty) :=
      hperm.mem_iff.mp (getLast?_mem_str _ _ hm)
    have hmem' : m ∈ st.map (fun p => p.2.last_synced_at) := List.mem_of_mem_filter hmem
    have hmne : m.isEmpty = false := by
      have := List.of_mem_filter hmem
      simpa using this
    refine ⟨?_, hmne⟩
    apply tsLe_antisymm
    · exact foldl_tsMax_ge _ "" m hmem'
    · rcases foldl_tsMax_mem (st.map (fun p => p.2.last_synced_at)) "" with h | h
      · rw [show maxSyncTime st = (st.map (fun p => p.2.last_synced_at)).foldl tsMax ""
          from rfl, h]
        exact tsLe_empty m
      · by_cases hMe : (maxSyncTime st).isEmpty
        · rw [String.isEmpty_iff] at hMe
          rw [show maxSyncTime st = (st.map (fun p => p.2.last_synced_at)).foldl tsMax ""
            from rfl] at hMe ⊢
          rw [hMe]
          exact tsLe_empty m
        · have hMf : maxSyncTime st ∈
              (st.map (fun p => p.2.last_synced_at)).filter (fun s => !s.isEmpty) := by
            apply List.mem_filter.mpr
            refine ⟨h, ?_⟩
            simp only [Bool.not_eq_true']
            exact Bool.eq_false_iff.mpr hMe
          exact sorted_getLast?_ge _ hsort m hm _ (hperm.mem_iff.mpr hMf)
  · cases hm

/-- C7: with `fullSync=false` and at least one sync record, the issues the
pull requests from the remote store are exactly those passing the state
filter whose `updated_at` is at or after the maximum `last_synced_at` over
all records; with `fullSync=true` or no records, all issues (state filter
only) are requested. The engine reaches the cutoff as `sort().pop()` over the
truthy `last_synced_at` values, which this theorem identifies with that
maximum. -/
theorem C7_incremental_cutoff (allRemote : List Issue) (includeClosed fullSync : Bool)
    (st : SyncState) :
    (fullSync = false → st ≠ [] →
      syncDownFetch allRemote includeClosed fullSync st =
        allRemote.filter (fun i =>
          (includeClosed || i.state == IssueState.isOpen) &&
          tsLe (maxSyncTime st) i.updated_at)) ∧
    ((fullSync = true ∨ st = []) →
      syncDownFetch allRemote includeClosed fullSync st =
        allRemote.filter (fun i => includeClosed || i.state == IssueState.isOpen)) := by
  constructor
  · intro hfs hne
    subst hfs
    cases hcl : computeLastSync false st with
    | none =>
      unfold syncDownFetch
      rw [hcl]
      unfold fetchIssuesModel
      apply List.filter_congr
      intro i _
      have hall : ∀ s ∈ st.map (fun p => p.2.last_synced_at), s = "" := by
        unfold computeLastSync at hcl
        simp only [Bool.false_eq_true, if_false] at hcl
        split at hcl
        · rename_i hlen
          exfalso
          rw [List.getLast?_eq_none_iff] at hcl
          have hlen2 := (List.mergeSort_perm ((st.map (fun p => p.2.last_synced_at)).filter
            (fun s => !s.isEmpty)) tsLe).length_eq
          rw [hcl] at hlen2
          simp at hlen2
          omega
        · rename_i hlen
          intro s hs
          by_contra hne'
          have : s ∈ (st.map (fun p => p.2.last_synced_at)).filter
              (fun s => !s.isEmpty) := by
            apply List.mem_filter.mpr
            refine ⟨hs, ?_⟩
            simp only [Bool.not_eq_true']
            exact Bool.eq_false_iff.mpr (fun he => hne' ((String.isEmpty_iff s).mp he))
          have hpos : 0 < ((st.map (fun p => p.2.last_synced_at)).filter
              (fun s => !s.isEmpty)).length := List.length_pos_of_mem this
          omega
      have hM : maxSyncTime st = "" := by
        rcases foldl_tsMax_mem (st.map (fun p => p.2.last_synced_at)) "" with h | h
        · exact h
        · exact hall _ h
      rw [hM]
      simp [tsLe_empty]
    | some m =>
      obtain ⟨hMeq, hmne⟩ := computeLastSync_eq_max st m hcl
      unfold syncDownFetch
      rw [hcl]
      unfold fetchIssuesModel
      apply List.filter_congr
      intro i _
      simp only [hmne, Bool.false_eq_true, if_false, ← hMeq]
  · intro h
    rcases h with hfs | hst
    · subst hfs
      unfold syncDownFetch computeLastSync
      simp only [if_true]
      unfold fetchIssuesModel
      apply List.filter_congr
      intro i _
      simp
    · subst hst
      unfold syncDownFetch computeLastSync
      simp only [Bool.false_eq_true, if_false]
      unfold fetchIssuesModel
      apply List.filter_congr
      intro i _
      simp

/-- Witness instantiating C7 at a concrete input. -/
theorem C7_incremental_cutoff_witness :
    syncDownFetch [sampleIssue 1 "A" tsA, sampleIssue 2 "B" tsC] true false
        [(1, sampleRecord), (2, { sampleRecord with last_synced_at := tsB })] =
      ([sampleIssue 1 "A" tsA, sampleIssue 2 "B" tsC].filter (fun i =>
        (true || i.state == IssueState.isOpen) &&
        tsLe (maxSyncTime [(1, sampleRecord),
          (2, { sampleRecord with last_synced_at := tsB })]) i.updated_at)) :=
  (C7_incremental_cutoff [sampleIssue 1 "A" tsA, sampleIssue 2 "B" tsC] true false
    [(1, sampleRecord), (2, { sampleRecord with last_synced_at := tsB })]).1 rfl
    (by decide)

/-! ## Claim C6 -/

theorem tsLt_false_of_tsLe (a b : String) (h : tsLe a b = true) : tsLt b a = false := by
  simp only [tsLe, decide_eq_true_eq] at h
  simp only [tsLt, decide_eq_false_iff_not]
  exact not_lt.mpr h

theorem upStep_frame (ctx : UpCtx) (st : SyncState) (k : Nat) (l : Issue) (m : Nat)
    (hm : m ≠ l.number) :
    lookupRec (upStep ctx st k l).st m = lookupRec st m := by
  cases hr : ctx.remote l.number with
  | none => rw [upStep_skip_noRemote _ _ _ _ hr]
  | some rem =>
    cases hs : lookupRec st l.number with
    | none => rw [upStep_skip_noSync _ _ _ _ _ hr hs]
    | some si =>
      by_cases hc : (remoteModifiedB rem.updated_at si.github_updated_at &&
          localModifiedB (ctx.mtime l.number) si.last_synced_at && !ctx.force) = true
      · rw [upStep_conflict_case _ _ _ _ _ _ hr hs hc]
      · have hc' := Bool.eq_false_iff.mpr hc
        by_cases hlm : localModifiedB (ctx.mtime l.number) si.last_synced_at = true
        · rw [upStep_main_case _ _ _ _ _ _ hr hs hlm hc']
          show lookupRec (upFieldsStep ctx (upStep1 ctx st k l rem).st
            (upStep1 ctx st k l rem).k l si).st m = lookupRec st m
          rw [upFieldsStep_lookup_ne _ _ _ _ _ _ hm]
          unfold upStep1
          split
          · split
            · rfl
            · show lookupRec (setRec st l.number (pushedRecord ctx k l)) m = lookupRec st m
              rw [lookupRec_setRec_ne _ _ _ _ hm]
          · rfl
        · rw [upStep_noLocal_case _ _ _ _ _ _ hr hs (Bool.eq_false_iff.mpr hlm)]

theorem upLoop_frame (ctx : UpCtx) :
    ∀ (ls : List Issue) (st : SyncState) (k : Nat) (m : Nat),
      m ∉ ls.map Issue.number →
      lookupRec (upLoop ctx st k ls).st m = lookupRec st m := by
  intro ls
  induction ls with
  | nil => intro st k m _; rfl
  | cons l ls ih =>
    intro st k m hm
    simp only [List.map_cons, List.mem_cons, not_or] at hm
    show lookupRec (upLoop ctx (upStep ctx st k l).st (upStep ctx st k l).k ls).st m = _
    rw [ih _ _ m (by simpa using hm.2), upStep_frame ctx st k l m hm.1]

theorem upLoop_updateIssue_number (ctx : UpCtx) :
    ∀ (ls : List Issue) (st : SyncState) (k : Nat) (n : Nat) (a b : Option String)
      (c : Option IssueState) (d e : Option (List String)),
      Effect.updateIssue n a b c d e ∈ (upLoop ctx st k ls).effects →
      n ∈ ls.map Issue.number := by
  intro ls
  induction ls with
  | nil => intro st k n a b c d e h; cases h
  | cons l ls ih =>
    intro st k n a b c d e h
    rcases List.mem_append.mp h with h' | h'
    · exact List.mem_cons.mpr (Or.inl (upStep_updateIssue_number ctx st k l n a b c d e h'))
    · exact List.mem_cons.mpr (Or.inr (ih _ _ n a b c d e h'))

/-- The second run of push performs nothing for an issue whose record makes
every branch of the classification a non-update: missing remote, unmodified
local copy, conflict (with `force=false`), or an empty payload. -/
def NoUpdIssue (ctx : UpCtx) (l : Issue) (r : SyncRecord) : Prop :=
  match ctx.remote l.number with
  | none => True
  | some rem =>
    localModifiedB (ctx.mtime l.number) r.last_synced_at = false ∨
    remoteModifiedB rem.updated_at r.github_updated_at = true ∨
    (computeUpdates l rem).hasChanges = false

theorem upStep_noUpd (ctx : UpCtx) (st : SyncState) (k : Nat) (l : Issue)
    (hforce : ctx.force = false)
    (h : lookupRec st l.number = none ∨
      ∃ r, lookupRec st l.number = some r ∧ NoUpdIssue ctx l r) :
    (upStep ctx st k l).updated = 0 ∧
    ∀ n a b c d e, Effect.updateIssue n a b c d e ∉ (upStep ctx st k l).effects := by
  cases hr : ctx.remote l.number with
  | none =>
    rw [upStep_skip_noRemote _ _ _ _ hr]
    exact ⟨rfl, by intro n a b c d e hmem; cases hmem⟩
  | some rem =>
    rcases h with hnone | ⟨r, hsome, hnoupd⟩
    · rw [upStep_skip_noSync _ _ _ _ _ hr hnone]
      exact ⟨rfl, by intro n a b c d e hmem; cases hmem⟩
    · unfold NoUpdIssue at hnoupd
      rw [hr] at hnoupd
      by_cases hlm : localModifiedB (ctx.mtime l.number) r.last_synced_at = true
      · rcases hnoupd with hlm' | hrm | hch
        · rw [hlm] at hlm'
          cases hlm'
        · rw [upStep_conflict_case _ _ _ _ _ _ hr hsome
            (by rw [hrm, hlm, hforce]; rfl)]
          exact ⟨rfl, by intro n a b c d e hmem; cases hmem⟩
        · by_cases hrm2 : remoteModifiedB rem.updated_at r.github_updated_at = true
          · rw [upStep_conflict_case _ _ _ _ _ _ hr hsome
              (by rw [hrm2, hlm, hforce]; rfl)]
            exact ⟨rfl, by intro n a b c d e hmem; cases hmem⟩
          · have hc' : (remoteModifiedB rem.updated_at r.github_updated_at &&
                localModifiedB (ctx.mtime l.number) r.last_synced_at && !ctx.force) = false := by
              rw [Bool.eq_false_iff.mpr hrm2]
              rfl
            rw [upStep_main_case _ _ _ _ _ _ hr hsome hlm hc']
            have hs1 : upStep1 ctx st k l rem = ⟨st, k, [], [], 0⟩ := by
              unfold upStep1
              rw [if_neg (by rw [hch]; simp)]
            rw [hs1]
            refine ⟨rfl, ?_⟩
            intro n a b c d e hmem
            rcases List.mem_append.mp hmem with h' | h'
            · cases h'
            · rcases upFieldsStep_effects_shape _ _ _ _ _ _ h' with ⟨pid, fid, v, hv⟩
              simp at hv
      · rw [upStep_noLocal_case _ _ _ _ _ _ hr hsome (Bool.eq_false_iff.mpr hlm)]
        exact ⟨rfl, by intro n a b c d e hmem; cases hmem⟩

theorem upLoop_noUpd (ctx : UpCtx) (hforce : ctx.force = false) :
    ∀ (ls : List Issue) (st : SyncState) (k : Nat),
      (ls.map Issue.number).Nodup →
      (∀ l ∈ ls, lookupRec st l.number = none ∨
        ∃ r, lookupRec st l.number = some r ∧ NoUpdIssue ctx l r) →
      (upLoop ctx st k ls).updated = 0 ∧
      ∀ n a b c d e, Effect.updateIssue n a b c d e ∉ (upLoop ctx st k ls).effects := by
  intro ls
  induction ls with
  | nil =>
    intro st k _ _
    exact ⟨rfl, by intro n a b c d e hmem; cases hmem⟩
  | cons x xs ih =>
    intro st k hN hrec
    simp only [List.map_cons, List.nodup_cons] at hN
    have hx := upStep_noUpd ctx st k x hforce (hrec x (List.mem_cons_self x xs))
    have hxs : ∀ l ∈ xs, lookupRec (upStep ctx st k x).st l.number = none ∨
        ∃ r, lookupRec (upStep ctx st k x).st l.number = some r ∧ NoUpdIssue ctx l r := by
      intro l hl
      have hne : l.number ≠ x.number := by
        intro heq
        exact hN.1 (heq ▸ List.mem_map_of_mem Issue.number hl)
      rw [upStep_frame ctx st k x l.number hne]
      exact hrec l (List.mem_cons_of_mem x hl)
    have htail := ih (upStep ctx st k x).st (upStep ctx st k x).k hN.2 hxs
    constructor
    · show (upStep ctx st k x).updated + (upLoop ctx _ _ xs).updated = 0
      rw [hx.1, htail.1]
    · intro n a b c d e hmem
      rcases List.mem_append.mp hmem with h' | h'
      · exact hx.2 n a b c d e h'
      · exact htail.2 n a b c d e h'

/-- What one completed non-dry-run `force=false` push run guarantees about
the record it leaves for an issue: either there is still no record, or the
record's `last_synced_at` is a fresh clock stamp (the issue was just pushed),
or no update was issued for the issue and its record still classifies as a
non-update. -/
def Run1Safe (ctx : UpCtx) (l : Issue) (effs : List Effect)
    (r? : Option SyncRecord) : Prop :=
  r? = none ∨ ∃ r, r? = some r ∧
    ((∃ j, r.last_synced_at = ctx.clock j) ∨
     ((∀ a b c d e, Effect.updateIssue l.number a b c d e ∉ effs) ∧ NoUpdIssue ctx l r))

theorem upStep_run1Safe (ctx : UpCtx) (st : SyncState) (k : Nat) (l : Issue)
    (_hforce : ctx.force = false) (hdry : ctx.dryRun = false) :
    Run1Safe ctx l (upStep ctx st k l).effects
      (lookupRec (upStep ctx st k l).st l.number) := by
  cases hr : ctx.remote l.number with
  | none =>
    rw [upStep_skip_noRemote _ _ _ _ hr]
    cases hlu : lookupRec st l.number with
    | none => exact Or.inl rfl
    | some r =>
      refine Or.inr ⟨r, rfl, Or.inr ⟨?_, ?_⟩⟩
      · intro a b c d e hmem
        cases hmem
      · unfold NoUpdIssue
        rw [hr]
        trivial
  | some rem =>
    cases hs : lookupRec st l.number with
    | none =>
      rw [upStep_skip_noSync _ _ _ _ _ hr hs]
      exact Or.inl hs
    | some si =>
      by_cases hc : (remoteModifiedB rem.updated_at si.github_updated_at &&
          localModifiedB (ctx.mtime l.number) si.last_synced_at && !ctx.force) = true
      · rw [upStep_conflict_case _ _ _ _ _ _ hr hs hc]
        refine Or.inr ⟨si, hs, Or.inr ⟨?_, ?_⟩⟩
        · intro a b c d e hmem
          cases hmem
        · unfold NoUpdIssue
          rw [hr]
          right
          left
          have hc2 := hc
          simp only [Bool.and_eq_true] at hc2
          exact hc2.1.1
      · have hc' := Bool.eq_false_iff.mpr hc
        by_cases hlm : localModifiedB (ctx.mtime l.number) si.last_synced_at = true
        · rw [upStep_main_case _ _ _ _ _ _ hr hs hlm hc']
          by_cases hch : (computeUpdates l rem).hasChanges = true
          · have hs1 : upStep1 ctx st k l rem =
                ⟨setRec st l.number (pushedRecord ctx k l), k + 2,
                 [Effect.updateIssue l.number (computeUpdates l rem).title
                    (computeUpdates l rem).body (computeUpdates l rem).state
                    (computeUpdates l rem).labels (computeUpdates l rem).assignees],
                 [Report.updatedIssue l.number], 1⟩ := by
              unfold upStep1
              rw [if_pos hch, if_neg (by rw [hdry]; simp)]
            rw [hs1]
            have hcore := upFieldsStep_core ctx (setRec st l.number (pushedRecord ctx k l))
              (k + 2) l si l.number
            rw [lookupRec_setRec_self] at hcore
            obtain ⟨r', hr', hcr⟩ := Option.map_eq_some'.mp hcore
            refine Or.inr ⟨r', hr', Or.inl ⟨k + 1, ?_⟩⟩
            have := congrArg (fun t => t.2.2.1) hcr
            simpa [SyncRecord.core, pushedRecord] using this
          · have hs1 : upStep1 ctx st k l rem = ⟨st, k, [], [], 0⟩ := by
              unfold upStep1
              rw [if_neg (by rw [Bool.eq_false_iff.mpr hch]; simp)]
            rw [hs1]
            have hcore := upFieldsStep_core ctx st k l si l.number
            rw [hs] at hcore
            obtain ⟨r', hr', hcr⟩ := Option.map_eq_some'.mp hcore
            refine Or.inr ⟨r', hr', Or.inr ⟨?_, ?_⟩⟩
            · intro a b c d e hmem
              rcases List.mem_append.mp hmem with h' | h'
              · cases h'
              · rcases upFieldsStep_effects_shape _ _ _ _ _ _ h' with ⟨pid, fid, v, hv⟩
                cases hv
            · unfold NoUpdIssue
              rw [hr]
              right
              right
              exact Bool.eq_false_iff.mpr hch
        · rw [upStep_noLocal_case _ _ _ _ _ _ hr hs (Bool.eq_false_iff.mpr hlm)]
          refine Or.inr ⟨si, hs, Or.inr ⟨?_, ?_⟩⟩
          · intro a b c d e hmem
            cases hmem
          · unfold NoUpdIssue
            rw [hr]
            left
            exact Bool.eq_false_iff.mpr hlm

theorem upLoop_run1Safe (ctx : UpCtx) (hforce : ctx.force = false)
    (hdry : ctx.dryRun = false) :
    ∀ (ls : List Issue) (st : SyncState) (k : Nat),
      (ls.map Issue.number).Nodup →
      ∀ l ∈ ls, Run1Safe ctx l (upLoop ctx st k ls).effects
        (lookupRec (upLoop ctx st k ls).st l.number) := by
  intro ls
  induction ls with
  | nil => intro st k _ l hl; cases hl
  | cons x xs ih =>
    intro st k hN l hl
    simp only [List.map_cons, List.nodup_cons] at hN
    rcases List.mem_cons.mp hl with rfl | hl'
    · have hfinal : lookupRec (upLoop ctx st k (l :: xs)).st l.number =
          lookupRec (upStep ctx st k l).st l.number := by
        show lookupRec (upLoop ctx (upStep ctx st k l).st (upStep ctx st k l).k xs).st
          l.number = _
        exact upLoop_frame ctx xs _ _ l.number hN.1
      rw [hfinal]
      rcases upStep_run1Safe ctx st k l hforce hdry with hnone | ⟨r, hsome, hcase⟩
      · exact Or.inl hnone
      · refine Or.inr ⟨r, hsome, ?_⟩
        rcases hcase with hclk | ⟨hnoeff, hnoupd⟩
        · exact Or.inl hclk
        · refine Or.inr ⟨?_, hnoupd⟩
          intro a b c d e hmem
          rcases List.mem_append.mp hmem with h' | h'
          · exact hnoeff a b c d e h'
          · exact hN.1 (upLoop_updateIssue_number ctx xs _ _ l.number a b c d e h')
    · have htail := ih (upStep ctx st k x).st (upStep ctx st k x).k hN.2 l hl'
      rcases htail with hnone | ⟨r, hsome, hcase⟩
      · exact Or.inl hnone
      · refine Or.inr ⟨r, hsome, ?_⟩
        rcases hcase with hclk | ⟨hnoeff, hnoupd⟩
        · exact Or.inl hclk
        · refine Or.inr ⟨?_, hnoupd⟩
          intro a b c d e hmem
          rcases List.mem_append.mp hmem with h' | h'
          · have hx := upStep_updateIssue_number ctx st k x l.number a b c d e h'
            exact hN.1 (hx ▸ List.mem_map_of_mem Issue.number hl')
          · exact hnoeff a b c d e h'

theorem NoUpdIssue_transfer (ctx1 ctx2 : UpCtx) (l : Issue) (r : SyncRecord)
    (hrem : ctx2.remote l.number = ctx1.remote l.number)
    (hmt : ctx2.mtime l.number = ctx1.mtime l.number)
    (h : NoUpdIssue ctx1 l r) : NoUpdIssue ctx2 l r := by
  unfold NoUpdIssue at h ⊢
  rw [hrem, hmt]
  exact h

theorem NoUpdIssue_of_clock (ctx1 ctx2 : UpCtx) (l : Issue) (r : SyncRecord) (j : Nat)
    (hmt : ctx2.mtime l.number = ctx1.mtime l.number)
    (hls : r.last_synced_at = ctx1.clock j)
    (hclk : ∀ n t, ctx1.mtime n = some t → ∀ j2, tsLe t (ctx1.clock j2) = true) :
    NoUpdIssue ctx2 l r := by
  unfold NoUpdIssue
  cases hr2 : ctx2.remote l.number with
  | none => trivial
  | some rem =>
    left
    rw [hmt]
    cases hmt' : ctx1.mtime l.number with
    | none => rfl
    | some t =>
      show tsLt r.last_synced_at t = false
      rw [hls]
      exact tsLt_false_of_tsLe _ _ (hclk l.number t hmt' j)

/-- C6: if a push with `force=false`, `dryRun=false` runs to completion and
push is run again with `force=false` starting from the sync state the first
run persisted, with the same local issues and file modification times (all of
which predate every clock reading of the first run), and with the remote
unchanged for every issue the first run did not update, then the second run
reports an updated count of zero and issues no remote issue-update call. -/
theorem C6_push_idempotent (ctx1 ctx2 : UpCtx) (localIssues : List Issue)
    (st0 : SyncState) (hN : (localIssues.map Issue.number).Nodup)
    (hf1 : ctx1.force = false) (hd1 : ctx1.dryRun = false) (hf2 : ctx2.force = false)
    (hmt : ctx2.mtime = ctx1.mtime)
    (hclk : ∀ n t, ctx1.mtime n = some t → ∀ j, tsLe t (ctx1.clock j) = true)
    (hremote : ∀ l ∈ localIssues,
      (∀ a b c d e, Effect.updateIssue l.number a b c d e ∉
        (syncUp ctx1 localIssues st0).effects) →
      ctx2.remote l.number = ctx1.remote l.number) :
    (syncUp ctx2 localIssues (syncUp ctx1 localIssues st0).state).updated = 0 ∧
    ∀ n a b c d e, Effect.updateIssue n a b c d e ∉
      (syncUp ctx2 localIssues (syncUp ctx1 localIssues st0).state).effects := by
  have hstate : (syncUp ctx1 localIssues st0).state = (upLoop ctx1 st0 0 localIssues).st := rfl
  have heffs : ∀ a b c d e n, Effect.updateIssue n a b c d e ∉
      (upLoop ctx1 st0 0 localIssues).effects →
      Effect.updateIssue n a b c d e ∉ (syncUp ctx1 localIssues st0).effects := by
    intro a b c d e n hnot hmem
    unfold syncUp at hmem
    simp only at hmem
    rcases List.mem_append.mp hmem with h' | h'
    · exact hnot h'
    · split at h'
      · cases h'
      · simp only [List.mem_singleton] at h'
        cases h'
  have hsafe : ∀ l ∈ localIssues,
      lookupRec (upLoop ctx1 st0 0 localIssues).st l.number = none ∨
      ∃ r, lookupRec (upLoop ctx1 st0 0 localIssues).st l.number = some r ∧
        NoUpdIssue ctx2 l r := by
    intro l hl
    rcases upLoop_run1Safe ctx1 hf1 hd1 localIssues st0 0 hN l hl with hnone | ⟨r, hsome, hcase⟩
    · exact Or.inl hnone
    · refine Or.inr ⟨r, hsome, ?_⟩
      rcases hcase with ⟨j, hls⟩ | ⟨hnoeff, hnoupd⟩
      · exact NoUpdIssue_of_clock ctx1 ctx2 l r j (by rw [hmt]) hls hclk
      · refine NoUpdIssue_transfer ctx1 ctx2 l r ?_ (by rw [hmt]) hnoupd
        exact hremote l hl (fun a b c d e => heffs a b c d e l.number (hnoeff a b c d e))
  have hmain := upLoop_noUpd ctx2 hf2 localIssues
    (upLoop ctx1 st0 0 localIssues).st 0 hN (by rw [← hstate] at hsafe; exact hsafe)
  constructor
  · exact hmain.1
  · intro n a b c d e hmem
    unfold syncUp at hmem
    simp only at hmem
    rcases List.mem_append.mp hmem with h' | h'
    · exact hmain.2 n a b c d e h'
    · split at h'
      · cases h'
      · simp only [List.mem_singleton] at h'
        cases h'

def ctx1C6W : UpCtx :=
  { remote := fun _ => some (sampleIssue 6 "R" tsA), mtime := fun _ => some tsB,
    proj := none, clock := fun _ => tsC, force := false, dryRun := false }

def ctx2C6W : UpCtx := { ctx1C6W with clock := fun _ => tsD }

def localC6W : Issue := sampleIssue 6 "L" tsA

/-- Witness instantiating C6 at a concrete input on which the first run does
push an update. -/
theorem C6_push_idempotent_witness :
    (syncUp ctx2C6W [localC6W] (syncUp ctx1C6W [localC6W] [(6, sampleRecord)]).state).updated
      = 0 ∧
    ∀ n a b c d e, Effect.updateIssue n a b c d e ∉
      (syncUp ctx2C6W [localC6W] (syncUp ctx1C6W [localC6W] [(6, sampleRecord)]).state).effects :=
  C6_push_idempotent ctx1C6W ctx2C6W [localC6W] [(6, sampleRecord)] (by decide)
    rfl rfl rfl rfl
    (fun n t ht j => by
      have hteq : t = tsB := by
        injection ht with h
        exact h.symm
      rw [hteq]
      show tsLe tsB tsC = true
      decide)
    (fun l hl _ => rfl)

end Issync

